import Mathlib

/-!
Verification of the llama-throughput-lab telemetry bridge
(`pmoves_nats_bridge.py`, `pmoves_chit_bridge.py`, `pmoves_metrics.py`).

The development shallowly embeds the three Python modules:

* JSON values (`JVal`) with a renderer faithful to `json.dumps` (default
  separators `", "` / `": "`, ASCII escaping) and a fuel-indexed parser
  modelling `json.loads`;
* the NATS bridge's envelope codec, global-handle state machine and
  payload construction;
* the metrics registry, `update_cell` and the HTTP handler `do_GET`;
* the CHIT bridge's `store_reasoning` record and the
  `archive_csv_to_minio` presign flow, including its exception behaviour
  (`except (URLError, OSError)` does not catch `json.JSONDecodeError`).

Machine integers do not occur; Python ints are embedded as `Int`/`Nat`,
throughput values as `Rat`, and `%.1f`-formatted floats as integers in
tenths.
-/

/-! ## JSON values

Python `dict`/`list`/`str`/`int`/`bool`/`None` values as they travel
through `json.dumps` / `json.loads`.  Mutual inductives (instead of a
nested `List`) keep every recursion structural, so all definitions
evaluate inside the kernel.  Numbers are embedded as `Int` for ints and
as exact decimals for floats: `JVal.dec m e` denotes `m / 10 ^ (e + 1)`,
covering every float Python's shortest-`repr` serializer prints in plain
decimal notation (such as a `throughput_tps` of `42.5`); one fractional
digit is always present, exactly as `repr` guarantees.
-/

mutual

inductive JVal where
  | null : JVal
  | bool : Bool → JVal
  | num : Int → JVal
  | dec : Int → Nat → JVal
  | str : String → JVal
  | arr : JArr → JVal
  | obj : JObj → JVal

inductive JArr where
  | nil : JArr
  | cons : JVal → JArr → JArr

inductive JObj where
  | nil : JObj
  | cons : String → JVal → JObj → JObj

end

/-- Key lookup in a JSON object, first binding wins (as in a Python dict,
which cannot hold duplicate keys). -/
def lookupO : JObj → String → Option JVal
  | JObj.nil, _ => none
  | JObj.cons k v tl, key => if k = key then some v else lookupO tl key

/-- Model of `d.get(key)` on a decoded JSON value that is known to be an
object; used through `dictGet` below for the general case. -/
def jget : JVal → String → Option JVal
  | JVal.obj o, key => lookupO o key
  | _, _ => none

/-- Python truthiness of a decoded JSON value (`if not upload_url: ...`). -/
def truthy : JVal → Bool
  | JVal.null => false
  | JVal.bool b => b
  | JVal.num n => n != 0
  | JVal.dec m _ => m != 0
  | JVal.str s => s != ""
  | JVal.arr JArr.nil => false
  | JVal.arr _ => true
  | JVal.obj JObj.nil => false
  | JVal.obj _ => true

/-! ## Decimal digits

`natDigits n` is the decimal numeral of `n`, via a structural
fuel-indexed helper so that it reduces in the kernel. -/

def natDigitsAux : Nat → Nat → List Char → List Char
  | 0, _, acc => acc
  | fuel+1, n, acc =>
    if n < 10 then Nat.digitChar n :: acc
    else natDigitsAux fuel (n / 10) (Nat.digitChar (n % 10) :: acc)

def natDigits (n : Nat) : List Char := natDigitsAux (n + 1) n []

/-- Decimal rendering of a Python `int` (as produced by `json.dumps` and
`str`). -/
def renderInt (n : Int) : List Char :=
  if n < 0 then '-' :: natDigits n.natAbs else natDigits n.natAbs

/-- The last `e` decimal digits of `n`, zero-padded to exactly `e`
characters (the fractional part of a printed float). -/
def natDigitsPad : Nat → Nat → List Char
  | 0, _ => []
  | e+1, n => natDigitsPad e (n / 10) ++ [Nat.digitChar (n % 10)]

/-- Decimal rendering of the float `m / 10 ^ (e + 1)`: sign, integer
part, point, `e + 1` fractional digits — the plain-decimal output of
Python's `repr`/`json.dumps` for such a float. -/
def renderDec (m : Int) (e : Nat) : List Char :=
  (if m < 0 then ['-'] else [])
    ++ natDigits (m.natAbs / 10 ^ (e + 1))
    ++ '.' :: natDigitsPad (e + 1) (m.natAbs % 10 ^ (e + 1))

/-- Numeric value of a digit character. -/
def dval (c : Char) : Nat := c.toNat - 48

/-- Value of a list of digit characters, most significant first. -/
def digitsToNat (ds : List Char) : Nat :=
  ds.foldl (fun a c => a * 10 + dval c) 0

/-! ## String escaping (`json.dumps` with default `ensure_ascii=True`) -/

/-- Lowercase hex digit, as emitted by `json.dumps` in `\uXXXX` escapes. -/
def hexDig (n : Nat) : Char :=
  if n < 10 then Nat.digitChar n else Char.ofNat (87 + n)

def hex4 (n : Nat) : List Char :=
  [hexDig (n / 4096 % 16), hexDig (n / 256 % 16), hexDig (n / 16 % 16), hexDig (n % 16)]

/-- Escaping of one character in a JSON string literal, following
CPython's `json.encoder` (`ensure_ascii` default). -/
def escapeChar (c : Char) : List Char :=
  if c = '"' then ['\\', '"']
  else if c = '\\' then ['\\', '\\']
  else if c = '\n' then ['\\', 'n']
  else if c = '\t' then ['\\', 't']
  else if c = '\r' then ['\\', 'r']
  else if c.toNat = 8 then ['\\', 'b']
  else if c.toNat = 12 then ['\\', 'f']
  else if c.toNat < 32 then '\\' :: 'u' :: hex4 c.toNat
  else if c.toNat < 127 then [c]
  else if c.toNat < 65536 then '\\' :: 'u' :: hex4 c.toNat
  else '\\' :: 'u' :: hex4 (55296 + (c.toNat - 65536) / 1024)
       ++ '\\' :: 'u' :: hex4 (56320 + (c.toNat - 65536) % 1024)

def escList : List Char → List Char
  | [] => []
  | c :: cs => escapeChar c ++ escList cs

/-- A JSON string literal: quote, escaped body, quote. -/
def renderStrLit (s : String) : List Char := '"' :: escList s.data ++ ['"']

/-! ## Rendering (`json.dumps` with default separators `", "`, `": "`) -/

mutual

def render : JVal → List Char
  | JVal.null => ['n', 'u', 'l', 'l']
  | JVal.bool true => ['t', 'r', 'u', 'e']
  | JVal.bool false => ['f', 'a', 'l', 's', 'e']
  | JVal.num n => renderInt n
  | JVal.dec m e => renderDec m e
  | JVal.str s => renderStrLit s
  | JVal.arr a => '[' :: renderArr a ++ [']']
  | JVal.obj o => '\x7b' :: renderObj o ++ ['\x7d']

def renderArr : JArr → List Char
  | JArr.nil => []
  | JArr.cons x JArr.nil => render x
  | JArr.cons x (JArr.cons y tl) =>
    render x ++ ',' :: ' ' :: renderArr (JArr.cons y tl)

def renderObj : JObj → List Char
  | JObj.nil => []
  | JObj.cons k v JObj.nil => renderStrLit k ++ ':' :: ' ' :: render v
  | JObj.cons k v (JObj.cons k2 v2 tl) =>
    renderStrLit k ++ ':' :: ' ' :: render v ++ ',' :: ' ' :: renderObj (JObj.cons k2 v2 tl)

end

/-- The serialized text of a JSON value; `.encode()` in the source turns
this into UTF-8 bytes. -/
def renderStr (j : JVal) : String := String.mk (render j)

/-! ## Size measure (fuel bound for the parser) -/

mutual

def jsize : JVal → Nat
  | JVal.null => 1
  | JVal.bool _ => 1
  | JVal.num _ => 1
  | JVal.dec _ _ => 1
  | JVal.str _ => 1
  | JVal.arr a => 1 + jsizeA a
  | JVal.obj o => 1 + jsizeO o

def jsizeA : JArr → Nat
  | JArr.nil => 0
  | JArr.cons x tl => 1 + jsize x + jsizeA tl

def jsizeO : JObj → Nat
  | JObj.nil => 0
  | JObj.cons _ v tl => 1 + jsize v + jsizeO tl

end

/-! ## Plain strings

Characters whose JSON escaping is the identity.  (The round-trip
theorems below hold for arbitrary strings; plainness only describes
concrete data such as presigned URLs in stub scenarios.) -/

def plainChar (c : Char) : Bool :=
  decide (32 ≤ c.toNat) && decide (c.toNat ≤ 126) && (c != '"') && (c != '\\')

def plainStr (s : String) : Bool := s.data.all plainChar

/-! ## Parsing (`json.loads`) -/

/-- JSON whitespace. -/
def isWs (c : Char) : Bool := c = ' ' || c = '\t' || c = '\n' || c = '\r'

def skipWs : List Char → List Char
  | [] => []
  | c :: cs => if isWs c then skipWs cs else c :: cs

/-- Longest digit run at the head of the input. -/
def takeDigits : List Char → List Char × List Char
  | [] => ([], [])
  | c :: cs =>
    if c.isDigit then
      let p := takeDigits cs
      (c :: p.1, p.2)
    else ([], c :: cs)

/-- The input does not continue a number: it is empty or starts with a
character that is neither a digit nor a decimal point, so a number token
rendered before it ends exactly where the renderer ended it. -/
def dFree : List Char → Bool
  | [] => true
  | c :: _ => !(c.isDigit || c = '.')

def hexVal (c : Char) : Option Nat :=
  if c.isDigit then some (c.toNat - 48)
  else if 97 ≤ c.toNat ∧ c.toNat ≤ 102 then some (c.toNat - 87)
  else if 65 ≤ c.toNat ∧ c.toNat ≤ 70 then some (c.toNat - 55)
  else none

/-- Four hex digits read into a code unit (the `XXXX` of `\uXXXX`). -/
def readHex4 : List Char → Option (Nat × List Char)
  | h1 :: h2 :: h3 :: h4 :: rest =>
    match hexVal h1, hexVal h2, hexVal h3, hexVal h4 with
    | some a, some b, some c2, some d => some (((a * 16 + b) * 16 + c2) * 16 + d, rest)
    | _, _, _, _ => none
  | _ => none

/-- Second half of surrogate-pair decoding: `r4` is the input after a
`\u` that followed a high surrogate `v`; `rest3` is the fallback
continuation (the input right after the high surrogate's four digits). -/
def uPair (v : Nat) (rest3 r4 : List Char) : Option (Char × List Char) :=
  match readHex4 r4 with
  | some (w, rest4) =>
    if 56320 ≤ w ∧ w < 57344 then
      some (Char.ofNat (65536 + (v - 55296) * 1024 + (w - 56320)), rest4)
    else some (Char.ofNat v, rest3)
  | none => some (Char.ofNat v, rest3)

/-- Continuation after reading one `\uXXXX` group with value `v`: a high
surrogate followed by `\u` tries to combine with a low surrogate, as in
CPython's scanner. -/
def uCombine (v : Nat) (rest3 : List Char) : Option (Char × List Char) :=
  if 55296 ≤ v ∧ v < 56320 then
    match rest3 with
    | b1 :: b2 :: r4 =>
      if b1 = '\\' ∧ b2 = 'u' then uPair v rest3 r4
      else some (Char.ofNat v, rest3)
    | _ => some (Char.ofNat v, rest3)
  else some (Char.ofNat v, rest3)

/-- Decoder for one `\uXXXX` escape (input starts at the first hex
digit): four hex digits, and — as in CPython's scanner — a high
surrogate followed by another `\uXXXX` low surrogate combines into one
astral code point.  A lone surrogate, which escaping a valid `Char`
never produces and no Lean `String` could carry, falls back to
`Char.ofNat`. -/
def uDecode (l : List Char) : Option (Char × List Char) :=
  match readHex4 l with
  | some (v, rest3) => uCombine v rest3
  | none => none

/-- Body of a JSON string literal after the opening quote, with an
accumulator; understands the escape sequences `json.loads` accepts
(via `uDecode` for `\uXXXX`).  Fuel-indexed so that it reduces in the
kernel; every step consumes at least one input character, so callers
pass the input length plus one. -/
def parseStrBody : Nat → List Char → List Char → Option (String × List Char)
  | 0, _, _ => none
  | _+1, [], _ => none
  | fuel+1, c :: rest, acc =>
    if c = '"' then some (String.mk acc.reverse, rest)
    else if c = '\\' then
      match rest with
      | [] => none
      | e :: rest2 =>
        if e = '"' then parseStrBody fuel rest2 ('"' :: acc)
        else if e = '\\' then parseStrBody fuel rest2 ('\\' :: acc)
        else if e = '/' then parseStrBody fuel rest2 ('/' :: acc)
        else if e = 'n' then parseStrBody fuel rest2 ('\n' :: acc)
        else if e = 't' then parseStrBody fuel rest2 ('\t' :: acc)
        else if e = 'r' then parseStrBody fuel rest2 ('\r' :: acc)
        else if e = 'b' then parseStrBody fuel rest2 (Char.ofNat 8 :: acc)
        else if e = 'f' then parseStrBody fuel rest2 (Char.ofNat 12 :: acc)
        else if e = 'u' then
          match uDecode rest2 with
          | some (ch, rest3) => parseStrBody fuel rest3 (ch :: acc)
          | none => none
        else none
    else parseStrBody fuel rest (c :: acc)

/-- The number continuation after the leading digit run `ds`: a `.` and
a second digit run make a float (`JVal.dec`), anything else ends an
integer, as in `json.loads`'s number scanner (exponents are outside the
modelled fragment). -/
def parseNumTail (neg : Bool) (ds : List Char) (r : List Char) : Option (JVal × List Char) :=
  match r with
  | [] => some (JVal.num (if neg then -(digitsToNat ds : Int) else (digitsToNat ds : Int)), [])
  | c2 :: r2 =>
    if c2 = '.' then
      match takeDigits r2 with
      | ([], _) => none
      | (fs, r3) =>
        let n : Nat := digitsToNat ds * 10 ^ fs.length + digitsToNat fs
        some (JVal.dec (if neg then -(n : Int) else (n : Int)) (fs.length - 1), r3)
    else some (JVal.num (if neg then -(digitsToNat ds : Int) else (digitsToNat ds : Int)), c2 :: r2)

mutual

def parseVal : Nat → List Char → Option (JVal × List Char)
  | 0, _ => none
  | fuel+1, cs =>
    match skipWs cs with
    | [] => none
    | c :: rest =>
      if c = 'n' then
        match rest with
        | 'u' :: 'l' :: 'l' :: r => some (JVal.null, r)
        | _ => none
      else if c = 't' then
        match rest with
        | 'r' :: 'u' :: 'e' :: r => some (JVal.bool true, r)
        | _ => none
      else if c = 'f' then
        match rest with
        | 'a' :: 'l' :: 's' :: 'e' :: r => some (JVal.bool false, r)
        | _ => none
      else if c = '"' then
        match parseStrBody (rest.length + 1) rest [] with
        | some (s, r) => some (JVal.str s, r)
        | none => none
      else if c = '[' then
        match skipWs rest with
        | [] => none
        | c2 :: r2 =>
          if c2 = ']' then some (JVal.arr JArr.nil, r2)
          else
            match parseItems fuel (c2 :: r2) with
            | some (a, r) => some (JVal.arr a, r)
            | none => none
      else if c = '\x7b' then
        match skipWs rest with
        | [] => none
        | c2 :: r2 =>
          if c2 = '\x7d' then some (JVal.obj JObj.nil, r2)
          else
            match parseObjItems fuel (c2 :: r2) with
            | some (o, r) => some (JVal.obj o, r)
            | none => none
      else if c = '-' then
        match takeDigits rest with
        | ([], _) => none
        | (ds, r) => parseNumTail true ds r
      else if c.isDigit then
        match takeDigits (c :: rest) with
        | ([], _) => none
        | (ds, r) => parseNumTail false ds r
      else none

def parseItems : Nat → List Char → Option (JArr × List Char)
  | 0, _ => none
  | fuel+1, cs =>
    match parseVal fuel cs with
    | none => none
    | some (x, r) =>
      match skipWs r with
      | [] => none
      | c2 :: r2 =>
        if c2 = ',' then
          match parseItems fuel (skipWs r2) with
          | some (a, r3) => some (JArr.cons x a, r3)
          | none => none
        else if c2 = ']' then some (JArr.cons x JArr.nil, r2)
        else none

def parseObjItems : Nat → List Char → Option (JObj × List Char)
  | 0, _ => none
  | fuel+1, cs =>
    match cs with
    | [] => none
    | c0 :: r0 =>
      if c0 = '"' then
        match parseStrBody (r0.length + 1) r0 [] with
        | none => none
        | some (k, r1) =>
          match skipWs r1 with
          | [] => none
          | c1 :: r2 =>
            if c1 = ':' then
              match parseVal fuel (skipWs r2) with
              | none => none
              | some (v, r3) =>
                match skipWs r3 with
                | [] => none
                | c3 :: r4 =>
                  if c3 = ',' then
                    match parseObjItems fuel (skipWs r4) with
                    | some (o, r5) => some (JObj.cons k v o, r5)
                    | none => none
                  else if c3 = '\x7d' then some (JObj.cons k v JObj.nil, r4)
                  else none
            else none
      else none

end

/-- The body of `parseVal` after the whitespace skip and head split,
as a standalone definition; `parseVal_eq` below relates the two.  Useful
because it unfolds freely in proofs. -/
def parseHead (fuel : Nat) (c : Char) (rest : List Char) : Option (JVal × List Char) :=
  if c = 'n' then
    match rest with
    | 'u' :: 'l' :: 'l' :: r => some (JVal.null, r)
    | _ => none
  else if c = 't' then
    match rest with
    | 'r' :: 'u' :: 'e' :: r => some (JVal.bool true, r)
    | _ => none
  else if c = 'f' then
    match rest with
    | 'a' :: 'l' :: 's' :: 'e' :: r => some (JVal.bool false, r)
    | _ => none
  else if c = '"' then
    match parseStrBody (rest.length + 1) rest [] with
    | some (s, r) => some (JVal.str s, r)
    | none => none
  else if c = '[' then
    match skipWs rest with
    | [] => none
    | c2 :: r2 =>
      if c2 = ']' then some (JVal.arr JArr.nil, r2)
      else
        match parseItems fuel (c2 :: r2) with
        | some (a, r) => some (JVal.arr a, r)
        | none => none
  else if c = '\x7b' then
    match skipWs rest with
    | [] => none
    | c2 :: r2 =>
      if c2 = '\x7d' then some (JVal.obj JObj.nil, r2)
      else
        match parseObjItems fuel (c2 :: r2) with
        | some (o, r) => some (JVal.obj o, r)
        | none => none
  else if c = '-' then
    match takeDigits rest with
    | ([], _) => none
    | (ds, r) => parseNumTail true ds r
  else if c.isDigit then
    match takeDigits (c :: rest) with
    | ([], _) => none
    | (ds, r) => parseNumTail false ds r
  else none

/-! ## Round-trip lemmas: digits -/

theorem jsize_pos : ∀ j, 1 ≤ jsize j
  | JVal.null => le_refl 1
  | JVal.bool _ => le_refl 1
  | JVal.num _ => le_refl 1
  | JVal.dec _ _ => le_refl 1
  | JVal.str _ => le_refl 1
  | JVal.arr a => by simp [jsize]
  | JVal.obj o => by simp [jsize]

theorem digitChar_toNat (d : Nat) (h : d < 10) : (Nat.digitChar d).toNat = 48 + d := by
  interval_cases d <;> decide

theorem digitChar_isDigit (d : Nat) (h : d < 10) : (Nat.digitChar d).isDigit = true := by
  interval_cases d <;> decide

theorem dval_digitChar (d : Nat) (h : d < 10) : dval (Nat.digitChar d) = d := by
  simp [dval, digitChar_toNat d h]

/-- Proof-side reformulation of `natDigitsAux` without the accumulator. -/
def digitsOf : Nat → Nat → List Char
  | 0, _ => []
  | fuel+1, n =>
    if n < 10 then [Nat.digitChar n]
    else digitsOf fuel (n / 10) ++ [Nat.digitChar (n % 10)]

theorem natDigitsAux_eq : ∀ fuel n acc, natDigitsAux fuel n acc = digitsOf fuel n ++ acc := by
  intro fuel
  induction fuel with
  | zero => intro n acc; rfl
  | succ fuel ih =>
    intro n acc
    by_cases h : n < 10
    · simp [natDigitsAux, digitsOf, h]
    · simp [natDigitsAux, digitsOf, h, ih]

theorem digitsOf_all_digit : ∀ fuel n c, c ∈ digitsOf fuel n → c.isDigit = true := by
  intro fuel
  induction fuel with
  | zero => intro n c hc; simp [digitsOf] at hc
  | succ fuel ih =>
    intro n c hc
    by_cases h : n < 10
    · simp [digitsOf, h] at hc
      rw [hc]; exact digitChar_isDigit n h
    · simp [digitsOf, h] at hc
      rcases hc with hc | hc
      · exact ih _ _ hc
      · rw [hc]; exact digitChar_isDigit _ (Nat.mod_lt _ (by omega))

theorem digitsOf_ne_nil (fuel n : Nat) (h : 1 ≤ fuel) : digitsOf fuel n ≠ [] := by
  cases fuel with
  | zero => omega
  | succ fuel =>
    by_cases hn : n < 10
    · simp [digitsOf, hn]
    · simp [digitsOf, hn]

theorem foldl_digitsOf : ∀ fuel n a, n < 10 ^ fuel →
    List.foldl (fun x c => x * 10 + dval c) a (digitsOf fuel n)
      = a * 10 ^ (digitsOf fuel n).length + n := by
  intro fuel
  induction fuel with
  | zero =>
    intro n a hn
    simp [digitsOf]
    omega
  | succ fuel ih =>
    intro n a hn
    by_cases h : n < 10
    · simp [digitsOf, h, List.foldl, dval_digitChar n h]
    · have hdiv : n / 10 < 10 ^ fuel := by
        rw [Nat.div_lt_iff_lt_mul (by omega)]
        calc n < 10 ^ (fuel + 1) := hn
        _ = 10 ^ fuel * 10 := by rw [Nat.pow_succ]
      have hmod : n % 10 < 10 := Nat.mod_lt _ (by omega)
      simp only [digitsOf, if_neg h, List.foldl_append, List.foldl, List.length_append,
        List.length_singleton]
      rw [ih (n / 10) a hdiv, dval_digitChar _ hmod]
      have hm : n / 10 * 10 + n % 10 = n := by omega
      calc (a * 10 ^ (digitsOf fuel (n / 10)).length + n / 10) * 10 + n % 10
          = a * (10 ^ (digitsOf fuel (n / 10)).length * 10) + (n / 10 * 10 + n % 10) := by ring
      _ = a * 10 ^ ((digitsOf fuel (n / 10)).length + 1) + n := by rw [hm, Nat.pow_succ]

theorem n_lt_ten_pow (n : Nat) : n < 10 ^ (n + 1) := by
  calc n < 10 ^ n := Nat.lt_pow_self (by omega) n
  _ ≤ 10 ^ (n + 1) := Nat.pow_le_pow_right (by omega) (by omega)

theorem digitsToNat_natDigits (n : Nat) : digitsToNat (natDigits n) = n := by
  rw [natDigits, natDigitsAux_eq, List.append_nil, digitsToNat,
    foldl_digitsOf (n + 1) n 0 (n_lt_ten_pow n)]
  omega

theorem natDigits_all_digit (n : Nat) : ∀ c ∈ natDigits n, c.isDigit = true := by
  intro c hc
  rw [natDigits, natDigitsAux_eq, List.append_nil] at hc
  exact digitsOf_all_digit _ _ _ hc

theorem natDigits_ne_nil (n : Nat) : natDigits n ≠ [] := by
  rw [natDigits, natDigitsAux_eq, List.append_nil]
  exact digitsOf_ne_nil _ _ (by omega)

theorem natDigitsPad_length : ∀ e n, (natDigitsPad e n).length = e := by
  intro e
  induction e with
  | zero => intro n; rfl
  | succ e ih => intro n; simp [natDigitsPad, ih]

theorem natDigitsPad_all_digit : ∀ e n c, c ∈ natDigitsPad e n → c.isDigit = true := by
  intro e
  induction e with
  | zero => intro n c hc; simp [natDigitsPad] at hc
  | succ e ih =>
    intro n c hc
    simp only [natDigitsPad, List.mem_append, List.mem_singleton] at hc
    cases hc with
    | inl h => exact ih _ c h
    | inr h => rw [h]; exact digitChar_isDigit _ (Nat.mod_lt _ (by omega))

theorem foldl_natDigitsPad : ∀ e n a,
    (natDigitsPad e n).foldl (fun a c => a * 10 + dval c) a = a * 10 ^ e + n % 10 ^ e := by
  intro e
  induction e with
  | zero => intro n a; simp [natDigitsPad, Nat.mod_one]
  | succ e ih =>
    intro n a
    rw [natDigitsPad, List.foldl_append, ih]
    simp only [List.foldl_cons, List.foldl_nil]
    rw [dval_digitChar _ (Nat.mod_lt _ (by omega))]
    have hm : n % 10 ^ (e + 1) = n % 10 + 10 * (n / 10 % 10 ^ e) := by
      rw [pow_succ, mul_comm, Nat.mod_mul]
    rw [hm, pow_succ]
    ring

theorem digitsToNat_natDigitsPad (e n : Nat) :
    digitsToNat (natDigitsPad e n) = n % 10 ^ e := by
  have h := foldl_natDigitsPad e n 0
  simpa [digitsToNat] using h

/-! ## Round-trip lemmas: characters and strings

The escape round-trip holds for arbitrary strings — every branch of
`escapeChar` is undone exactly by `parseStrBody`/`uDecode`. -/

theorem hexVal_hexDig (x : Nat) (h : x < 16) : hexVal (hexDig x) = some x := by
  interval_cases x <;> decide

/-- Validity of a `Char`'s code point: below the surrogates, or strictly
between them and `0x110000`. -/
theorem char_toNat_valid (c : Char) :
    c.toNat < 55296 ∨ (57343 < c.toNat ∧ c.toNat < 1114112) := c.valid

theorem hexVal_hexDig_mod (x : Nat) : hexVal (hexDig (x % 16)) = some (x % 16) :=
  hexVal_hexDig _ (Nat.mod_lt _ (by omega))

theorem readHex4_hex4 (n : Nat) (rest : List Char) :
    readHex4 (hex4 n ++ rest) = some (n % 65536, rest) := by
  have hv : n / 4096 % 16 * 16 + n / 256 % 16 = n / 256 % 256 := by omega
  have hv2 : n / 256 % 256 * 16 + n / 16 % 16 = n / 16 % 4096 := by omega
  have hv3 : n / 16 % 4096 * 16 + n % 16 = n % 65536 := by omega
  simp only [hex4, List.cons_append, List.nil_append, readHex4, hexVal_hexDig_mod, hv, hv2, hv3]

theorem uDecode_hex4_cont (n : Nat) (rest : List Char) :
    uDecode (hex4 n ++ rest) = uCombine (n % 65536) rest := by
  rw [uDecode, readHex4_hex4]

theorem uCombine_nosurr (v : Nat) (rest3 : List Char) (hs : ¬ (55296 ≤ v ∧ v < 56320)) :
    uCombine v rest3 = some (Char.ofNat v, rest3) := by
  show (if 55296 ≤ v ∧ v < 56320 then _ else _) = _
  rw [if_neg hs]

theorem uCombine_surr (v : Nat) (hs : 55296 ≤ v ∧ v < 56320) (r4 : List Char) :
    uCombine v ('\\' :: 'u' :: r4) = uPair v ('\\' :: 'u' :: r4) r4 := by
  show (if 55296 ≤ v ∧ v < 56320 then _ else _) = _
  rw [if_pos hs]
  show (if ('\\' : Char) = '\\' ∧ ('u' : Char) = 'u' then _ else _) = _
  rw [if_pos ⟨rfl, rfl⟩]

theorem uPair_hex4 (v w : Nat) (hw : 56320 ≤ w % 65536 ∧ w % 65536 < 57344)
    (rest3 rest : List Char) :
    uPair v rest3 (hex4 w ++ rest)
      = some (Char.ofNat (65536 + (v - 55296) * 1024 + (w % 65536 - 56320)), rest) := by
  rw [uPair, readHex4_hex4]
  show (if 56320 ≤ w % 65536 ∧ w % 65536 < 57344 then _ else _) = _
  rw [if_pos hw]

theorem uDecode_hex4 (n : Nat) (hn : n < 65536) (hs : ¬ (55296 ≤ n ∧ n < 56320))
    (rest : List Char) : uDecode (hex4 n ++ rest) = some (Char.ofNat n, rest) := by
  rw [uDecode_hex4_cont, Nat.mod_eq_of_lt hn, uCombine_nosurr _ _ hs]

theorem uDecode_hex4_pair (n : Nat) (h1 : 65536 ≤ n) (h2 : n < 1114112) (rest : List Char) :
    uDecode (hex4 (55296 + (n - 65536) / 1024)
        ++ '\\' :: 'u' :: (hex4 (56320 + (n - 65536) % 1024) ++ rest))
      = some (Char.ofNat n, rest) := by
  have hhi : (55296 + (n - 65536) / 1024) % 65536 = 55296 + (n - 65536) / 1024 :=
    Nat.mod_eq_of_lt (by omega)
  have hlo : (56320 + (n - 65536) % 1024) % 65536 = 56320 + (n - 65536) % 1024 :=
    Nat.mod_eq_of_lt (by omega)
  rw [uDecode_hex4_cont, hhi, uCombine_surr _ (by omega),
    uPair_hex4 _ _ (by rw [hlo]; omega), hlo]
  have hn : 65536 + (55296 + (n - 65536) / 1024 - 55296) * 1024
      + (56320 + (n - 65536) % 1024 - 56320) = n := by omega
  rw [hn]

theorem parseStrBody_close (fuel : Nat) (cs acc : List Char) :
    parseStrBody (fuel + 1) ('"' :: cs) acc = some (String.mk acc.reverse, cs) := rfl

theorem parseStrBody_step (fuel : Nat) (c : Char) (cs acc : List Char)
    (h3 : c ≠ '"') (h4 : c ≠ '\\') :
    parseStrBody (fuel + 1) (c :: cs) acc = parseStrBody fuel cs (c :: acc) := by
  simp only [parseStrBody]
  rw [if_neg h3, if_neg h4]

theorem parseStrBody_u (fuel : Nat) (cs acc : List Char) :
    parseStrBody (fuel + 1) ('\\' :: 'u' :: cs) acc
      = (match uDecode cs with
         | some (ch, rest3) => parseStrBody fuel rest3 (ch :: acc)
         | none => none) := rfl

/-- One escaped character is parsed back to the character itself. -/
theorem parseStrBody_escapeChar (c : Char) (fuel : Nat) (cs acc : List Char) :
    parseStrBody (fuel + 1) (escapeChar c ++ cs) acc = parseStrBody fuel cs (c :: acc) := by
  have hval := char_toNat_valid c
  have hofn : Char.ofNat c.toNat = c := Char.ofNat_toNat c
  by_cases h1 : c = '"'
  · subst h1
    rfl
  by_cases h2 : c = '\\'
  · subst h2
    rfl
  by_cases h3 : c = '\n'
  · subst h3
    rfl
  by_cases h4 : c = '\t'
  · subst h4
    rfl
  by_cases h5 : c = '\r'
  · subst h5
    rfl
  by_cases h6 : c.toNat = 8
  · have he : escapeChar c = ['\\', 'b'] := by
      unfold escapeChar
      rw [if_neg h1, if_neg h2, if_neg h3, if_neg h4, if_neg h5, if_pos h6]
    have hcn : Char.ofNat 8 = c := by rw [← h6]; exact hofn
    rw [he, ← hcn]
    rfl
  by_cases h7 : c.toNat = 12
  · have he : escapeChar c = ['\\', 'f'] := by
      unfold escapeChar
      rw [if_neg h1, if_neg h2, if_neg h3, if_neg h4, if_neg h5, if_neg h6, if_pos h7]
    have hcn : Char.ofNat 12 = c := by rw [← h7]; exact hofn
    rw [he, ← hcn]
    rfl
  by_cases h8 : c.toNat < 32
  · have he : escapeChar c = '\\' :: 'u' :: hex4 c.toNat := by
      unfold escapeChar
      rw [if_neg h1, if_neg h2, if_neg h3, if_neg h4, if_neg h5, if_neg h6, if_neg h7,
        if_pos h8]
    rw [he, List.cons_append, List.cons_append, parseStrBody_u,
      uDecode_hex4 c.toNat (by omega) (by omega) cs, hofn]
  by_cases h9 : c.toNat < 127
  · have he : escapeChar c = [c] := by
      unfold escapeChar
      rw [if_neg h1, if_neg h2, if_neg h3, if_neg h4, if_neg h5, if_neg h6, if_neg h7,
        if_neg h8, if_pos h9]
    rw [he, List.cons_append, List.nil_append, parseStrBody_step fuel c cs acc h1 h2]
  by_cases h10 : c.toNat < 65536
  · have he : escapeChar c = '\\' :: 'u' :: hex4 c.toNat := by
      unfold escapeChar
      rw [if_neg h1, if_neg h2, if_neg h3, if_neg h4, if_neg h5, if_neg h6, if_neg h7,
        if_neg h8, if_neg h9, if_pos h10]
    rw [he, List.cons_append, List.cons_append, parseStrBody_u,
      uDecode_hex4 c.toNat (by omega) (by omega) cs, hofn]
  · have he : escapeChar c = '\\' :: 'u' :: hex4 (55296 + (c.toNat - 65536) / 1024)
        ++ '\\' :: 'u' :: hex4 (56320 + (c.toNat - 65536) % 1024) := by
      unfold escapeChar
      rw [if_neg h1, if_neg h2, if_neg h3, if_neg h4, if_neg h5, if_neg h6, if_neg h7,
        if_neg h8, if_neg h9, if_neg h10]
    rw [he]
    rw [show ('\\' :: 'u' :: hex4 (55296 + (c.toNat - 65536) / 1024)
        ++ '\\' :: 'u' :: hex4 (56320 + (c.toNat - 65536) % 1024)) ++ cs
      = '\\' :: 'u' :: (hex4 (55296 + (c.toNat - 65536) / 1024)
        ++ '\\' :: 'u' :: (hex4 (56320 + (c.toNat - 65536) % 1024) ++ cs)) from by
      simp [List.cons_append, List.append_assoc]]
    rw [parseStrBody_u, uDecode_hex4_pair c.toNat (by omega) (by omega) cs, hofn]

/-- Parsing inverts escaping for a whole string body, for any fuel
exceeding its length. -/
theorem parseStrBody_escList : ∀ l fuel acc rest, l.length < fuel →
    parseStrBody fuel (escList l ++ '"' :: rest) acc
      = some (String.mk (acc.reverse ++ l), rest) := by
  intro l
  induction l with
  | nil =>
    intro fuel acc rest hf
    cases fuel with
    | zero => omega
    | succ f =>
      rw [show escList [] ++ '"' :: rest = '"' :: rest from rfl, parseStrBody_close]
      simp
  | cons c cs ih =>
    intro fuel acc rest hf
    cases fuel with
    | zero => omega
    | succ f =>
      rw [show escList (c :: cs) ++ '"' :: rest
          = escapeChar c ++ (escList cs ++ '"' :: rest) from by
        simp [escList, List.append_assoc]]
      rw [parseStrBody_escapeChar c f _ acc, ih f (c :: acc) rest (by simpa using hf)]
      simp

theorem escapeChar_length_pos (c : Char) : 1 ≤ (escapeChar c).length := by
  unfold escapeChar
  repeat' split
  all_goals simp only [List.length_cons, List.length_append, hex4, List.length_nil]
  all_goals omega

theorem escList_length_ge : ∀ l : List Char, l.length ≤ (escList l).length := by
  intro l
  induction l with
  | nil => simp [escList]
  | cons c cs ih =>
    have := escapeChar_length_pos c
    simp only [escList, List.length_append, List.length_cons]
    omega

/-! ## Round-trip lemmas: token heads -/

/-- A character that can legitimately start a rendered JSON value: not
whitespace and not a closing delimiter or separator. -/
def goodHead (c : Char) : Prop :=
  isWs c = false ∧ c ≠ ']' ∧ c ≠ '\x7d' ∧ c ≠ ','

theorem goodHead_of_isDigit (c : Char) (h : c.isDigit = true) : goodHead c := by
  have h1 : c ≠ ' ' := fun he => absurd h (by rw [he]; decide)
  have h2 : c ≠ '\t' := fun he => absurd h (by rw [he]; decide)
  have h3 : c ≠ '\n' := fun he => absurd h (by rw [he]; decide)
  have h4 : c ≠ '\r' := fun he => absurd h (by rw [he]; decide)
  have h5 : c ≠ ']' := fun he => absurd h (by rw [he]; decide)
  have h6 : c ≠ '\x7d' := fun he => absurd h (by rw [he]; decide)
  have h7 : c ≠ ',' := fun he => absurd h (by rw [he]; decide)
  exact ⟨by simp [isWs, h1, h2, h3, h4], h5, h6, h7⟩

theorem digit_notKey (c : Char) (h : c.isDigit = true) :
    c ≠ 'n' ∧ c ≠ 't' ∧ c ≠ 'f' ∧ c ≠ '"' ∧ c ≠ '[' ∧ c ≠ '\x7b' ∧ c ≠ '-' := by
  refine ⟨?_, ?_, ?_, ?_, ?_, ?_, ?_⟩ <;> intro he <;> rw [he] at h <;> exact absurd h (by decide)

theorem skipWs_cons_of (c : Char) (l : List Char) (h : isWs c = false) :
    skipWs (c :: l) = c :: l := by
  simp [skipWs, h]

theorem skipWs_space (l : List Char) : skipWs (' ' :: l) = skipWs l := by
  simp [skipWs, isWs]

/-- A `dFree` input in particular does not start with a digit. -/
theorem dFree_not_digit (rest : List Char) (hr : dFree rest = true) :
    ∀ c cs, rest = c :: cs → c.isDigit = false := by
  intro c cs h
  subst h
  simp only [dFree, Bool.not_eq_eq_eq_not, Bool.not_true, Bool.or_eq_false_iff] at hr
  exact hr.1

theorem takeDigits_append (ds rest : List Char) (h : ∀ c ∈ ds, c.isDigit = true)
    (hr : ∀ c cs, rest = c :: cs → c.isDigit = false) :
    takeDigits (ds ++ rest) = (ds, rest) := by
  induction ds with
  | nil =>
    cases rest with
    | nil => rfl
    | cons c cs =>
      have : c.isDigit = false := hr c cs rfl
      simp [takeDigits, this]
  | cons d ds ih =>
    have hd : d.isDigit = true := h d (by simp)
    have hds : ∀ c ∈ ds, c.isDigit = true := fun c hc => h c (by simp [hc])
    rw [List.cons_append, takeDigits.eq_def]
    simp [hd, ih hds]

theorem parseNumTail_dot (neg : Bool) (ds r2 : List Char) :
    parseNumTail neg ds ('.' :: r2)
      = (match takeDigits r2 with
         | ([], _) => none
         | (fs, r3) =>
           some (JVal.dec
             (if neg then -((digitsToNat ds * 10 ^ fs.length + digitsToNat fs : Nat) : Int)
              else ((digitsToNat ds * 10 ^ fs.length + digitsToNat fs : Nat) : Int))
             (fs.length - 1), r3)) := rfl

/-- On input that cannot continue a number, `parseNumTail` ends the
integer right there. -/
theorem parseNumTail_dFree (neg : Bool) (ds rest : List Char) (hr : dFree rest = true) :
    parseNumTail neg ds rest
      = some (JVal.num (if neg then -(digitsToNat ds : Int) else (digitsToNat ds : Int)),
          rest) := by
  cases rest with
  | nil => rfl
  | cons c2 r2 =>
    have hc : ¬ c2 = '.' := by
      intro h
      subst h
      simp [dFree] at hr
    show (if c2 = '.' then _ else _) = _
    rw [if_neg hc]

/-- A rendered fractional part (point, `e + 1` padded digits) is parsed
back to the same decimal. -/
theorem parseNumTail_dec (neg : Bool) (ds : List Char) (e fp : Nat)
    (hfp : fp < 10 ^ (e + 1)) (rest : List Char) (hr : dFree rest = true) :
    parseNumTail neg ds ('.' :: (natDigitsPad (e + 1) fp ++ rest))
      = some (JVal.dec
          (if neg then -((digitsToNat ds * 10 ^ (e + 1) + fp : Nat) : Int)
           else ((digitsToNat ds * 10 ^ (e + 1) + fp : Nat) : Int)) e, rest) := by
  obtain ⟨d2, ds2, hds2⟩ : ∃ d2 ds2, natDigitsPad (e + 1) fp = d2 :: ds2 := by
    cases h : natDigitsPad (e + 1) fp with
    | nil =>
      have hlen := natDigitsPad_length (e + 1) fp
      rw [h] at hlen
      simp only [List.length_nil] at hlen
      omega
    | cons d2 ds2 => exact ⟨d2, ds2, rfl⟩
  rw [parseNumTail_dot,
    takeDigits_append _ rest (natDigitsPad_all_digit _ _) (dFree_not_digit rest hr), hds2]
  have hlen : (d2 :: ds2).length = e + 1 := by
    rw [← hds2]
    exact natDigitsPad_length _ _
  have hval : digitsToNat (d2 :: ds2) = fp := by
    rw [← hds2, digitsToNat_natDigitsPad]
    exact Nat.mod_eq_of_lt hfp
  show some (JVal.dec
      (if neg then -((digitsToNat ds * 10 ^ (d2 :: ds2).length + digitsToNat (d2 :: ds2) : Nat)
          : Int)
       else ((digitsToNat ds * 10 ^ (d2 :: ds2).length + digitsToNat (d2 :: ds2) : Nat) : Int))
      ((d2 :: ds2).length - 1), rest) = _
  rw [hlen, hval, Nat.add_sub_cancel]

theorem render_head : ∀ j : JVal, ∃ c tl, render j = c :: tl ∧ goodHead c := by
  intro j
  cases j with
  | null => exact ⟨'n', _, rfl, by unfold goodHead; decide⟩
  | bool b =>
    cases b with
    | true => exact ⟨'t', _, rfl, by unfold goodHead; decide⟩
    | false => exact ⟨'f', _, rfl, by unfold goodHead; decide⟩
  | num n =>
    by_cases hn : n < 0
    · refine ⟨'-', natDigits n.natAbs, ?_, by unfold goodHead; decide⟩
      simp [render, renderInt, hn]
    · obtain ⟨d, ds, hds⟩ : ∃ d ds, natDigits n.natAbs = d :: ds := by
        cases h : natDigits n.natAbs with
        | nil => exact absurd h (natDigits_ne_nil _)
        | cons d ds => exact ⟨d, ds, rfl⟩
      refine ⟨d, ds, ?_, goodHead_of_isDigit d ?_⟩
      · simp [render, renderInt, hn, hds]
      · exact natDigits_all_digit _ d (by rw [hds]; simp)
  | dec m e =>
    by_cases hm : m < 0
    · refine ⟨'-', natDigits (m.natAbs / 10 ^ (e + 1))
        ++ '.' :: natDigitsPad (e + 1) (m.natAbs % 10 ^ (e + 1)), ?_,
        by unfold goodHead; decide⟩
      simp [render, renderDec, hm]
    · obtain ⟨d, ds, hds⟩ : ∃ d ds, natDigits (m.natAbs / 10 ^ (e + 1)) = d :: ds := by
        cases h : natDigits (m.natAbs / 10 ^ (e + 1)) with
        | nil => exact absurd h (natDigits_ne_nil _)
        | cons d ds => exact ⟨d, ds, rfl⟩
      refine ⟨d, ds ++ '.' :: natDigitsPad (e + 1) (m.natAbs % 10 ^ (e + 1)), ?_,
        goodHead_of_isDigit d ?_⟩
      · simp [render, renderDec, hm, hds]
      · exact natDigits_all_digit _ d (by rw [hds]; simp)
  | str s => exact ⟨'"', _, rfl, by unfold goodHead; decide⟩
  | arr a => exact ⟨'[', _, rfl, by unfold goodHead; decide⟩
  | obj o => exact ⟨'\x7b', _, rfl, by unfold goodHead; decide⟩

theorem renderArr_head (x : JVal) (tl : JArr) :
    ∃ c m, renderArr (JArr.cons x tl) = c :: m ∧ goodHead c := by
  obtain ⟨c, m, hm, hc⟩ := render_head x
  cases tl with
  | nil => exact ⟨c, m, by simp [renderArr, hm], hc⟩
  | cons y tl2 =>
    exact ⟨c, m ++ ',' :: ' ' :: renderArr (JArr.cons y tl2), by simp [renderArr, hm], hc⟩

theorem renderObj_head (k : String) (v : JVal) (tl : JObj) :
    ∃ m, renderObj (JObj.cons k v tl) = '"' :: m := by
  cases tl with
  | nil =>
    refine ⟨escList k.data ++ '"' :: ':' :: ' ' :: render v, ?_⟩
    simp [renderObj, renderStrLit]
  | cons k2 v2 tl2 =>
    refine ⟨escList k.data ++ '"' :: ':' :: ' '
      :: (render v ++ ',' :: ' ' :: renderObj (JObj.cons k2 v2 tl2)), ?_⟩
    simp [renderObj, renderStrLit]

/-! ## Round-trip: stepping lemmas for the parser -/

theorem parseVal_eq (fuel : Nat) (cs : List Char) :
    parseVal (fuel + 1) cs
      = (match skipWs cs with
         | [] => none
         | c :: rest => parseHead fuel c rest) := by
  simp only [parseVal]
  rfl

theorem parseVal_step (fuel : Nat) (c : Char) (cs : List Char) (h : isWs c = false) :
    parseVal (fuel + 1) (c :: cs) = parseHead fuel c cs := by
  rw [parseVal_eq, skipWs_cons_of c cs h]

theorem parseHead_quote (fuel : Nat) (cs : List Char) :
    parseHead fuel '"' cs
      = (match parseStrBody (cs.length + 1) cs [] with
         | some (s, r) => some (JVal.str s, r)
         | none => none) := rfl

theorem parseHead_lbrack (fuel : Nat) (cs : List Char) :
    parseHead fuel '[' cs
      = (match skipWs cs with
         | [] => none
         | c2 :: r2 =>
           if c2 = ']' then some (JVal.arr JArr.nil, r2)
           else
             match parseItems fuel (c2 :: r2) with
             | some (a, r) => some (JVal.arr a, r)
             | none => none) := rfl

theorem parseHead_lbrace (fuel : Nat) (cs : List Char) :
    parseHead fuel '\x7b' cs
      = (match skipWs cs with
         | [] => none
         | c2 :: r2 =>
           if c2 = '\x7d' then some (JVal.obj JObj.nil, r2)
           else
             match parseObjItems fuel (c2 :: r2) with
             | some (o, r) => some (JVal.obj o, r)
             | none => none) := rfl

theorem parseHead_minus (fuel : Nat) (cs : List Char) :
    parseHead fuel '-' cs
      = (match takeDigits cs with
         | ([], _) => none
         | (ds, r) => parseNumTail true ds r) := rfl

theorem parseHead_digit (fuel : Nat) (c : Char) (cs : List Char) (h : c.isDigit = true) :
    parseHead fuel c cs
      = (match takeDigits (c :: cs) with
         | ([], _) => none
         | (ds, r) => parseNumTail false ds r) := by
  obtain ⟨h1, h2, h3, h4, h5, h6, h7⟩ := digit_notKey c h
  unfold parseHead
  rw [if_neg h1, if_neg h2, if_neg h3, if_neg h4, if_neg h5, if_neg h6, if_neg h7, if_pos h]

theorem natDigits_cons (n : Nat) : ∃ d ds, natDigits n = d :: ds ∧ d.isDigit = true := by
  cases h : natDigits n with
  | nil => exact absurd h (natDigits_ne_nil n)
  | cons d ds =>
    refine ⟨d, ds, rfl, ?_⟩
    exact natDigits_all_digit n d (by rw [h]; simp)

/-- Continuation of `parseItems` after one element has been parsed. -/
def itemsCont (fuel : Nat) (x : JVal) (r : List Char) : Option (JArr × List Char) :=
  match skipWs r with
  | [] => none
  | c2 :: r2 =>
    if c2 = ',' then
      match parseItems fuel (skipWs r2) with
      | some (a, r3) => some (JArr.cons x a, r3)
      | none => none
    else if c2 = ']' then some (JArr.cons x JArr.nil, r2)
    else none

/-- Continuation of `parseObjItems` after one `key: value` pair. -/
def objCont (fuel : Nat) (k : String) (v : JVal) (r3 : List Char) : Option (JObj × List Char) :=
  match skipWs r3 with
  | [] => none
  | c3 :: r4 =>
    if c3 = ',' then
      match parseObjItems fuel (skipWs r4) with
      | some (o, r5) => some (JObj.cons k v o, r5)
      | none => none
    else if c3 = '\x7d' then some (JObj.cons k v JObj.nil, r4)
    else none

/-- Body of `parseObjItems` after the opening quote of a key. -/
def objEntry (fuel : Nat) (r0 : List Char) : Option (JObj × List Char) :=
  match parseStrBody (r0.length + 1) r0 [] with
  | none => none
  | some (k, r1) =>
    match skipWs r1 with
    | [] => none
    | c1 :: r2 =>
      if c1 = ':' then
        match parseVal fuel (skipWs r2) with
        | none => none
        | some (v, r3) => objCont fuel k v r3
      else none

theorem parseItems_eq (fuel : Nat) (cs : List Char) :
    parseItems (fuel + 1) cs
      = (match parseVal fuel cs with
         | none => none
         | some (x, r) => itemsCont fuel x r) := by
  simp only [parseItems]
  rfl

theorem parseObjItems_quote (fuel : Nat) (r0 : List Char) :
    parseObjItems (fuel + 1) ('"' :: r0) = objEntry fuel r0 := by
  simp only [parseObjItems]
  rfl

theorem itemsCont_comma (fuel : Nat) (x : JVal) (m : List Char) :
    itemsCont fuel x (',' :: ' ' :: m)
      = (match parseItems fuel (skipWs m) with
         | some (a, r3) => some (JArr.cons x a, r3)
         | none => none) := rfl

theorem itemsCont_close (fuel : Nat) (x : JVal) (rest : List Char) :
    itemsCont fuel x (']' :: rest) = some (JArr.cons x JArr.nil, rest) := rfl

theorem objCont_comma (fuel : Nat) (k : String) (v : JVal) (m : List Char) :
    objCont fuel k v (',' :: ' ' :: m)
      = (match parseObjItems fuel (skipWs m) with
         | some (o, r5) => some (JObj.cons k v o, r5)
         | none => none) := rfl

theorem objCont_close (fuel : Nat) (k : String) (v : JVal) (rest : List Char) :
    objCont fuel k v ('\x7d' :: rest) = some (JObj.cons k v JObj.nil, rest) := rfl

theorem objEntry_parse (fuel : Nat) (kd t : List Char) :
    objEntry fuel (escList kd ++ '"' :: t)
      = (match skipWs t with
         | [] => none
         | c1 :: r2 =>
           if c1 = ':' then
             match parseVal fuel (skipWs r2) with
             | none => none
             | some (v, r3) => objCont fuel (String.mk kd) v r3
           else none) := by
  unfold objEntry
  have hlen : kd.length < (escList kd ++ '"' :: t).length + 1 := by
    have := escList_length_ge kd
    simp only [List.length_append, List.length_cons]
    omega
  rw [parseStrBody_escList kd _ [] t hlen]
  rfl

/-- Parsing inverts rendering: the serialized form of any value parses
back to exactly that value, leaving a remainder that cannot continue a
number token untouched. -/
theorem parse_render_all : ∀ fuel : Nat,
    (∀ j rest, jsize j ≤ fuel → dFree rest = true →
      parseVal fuel (render j ++ rest) = some (j, rest))
    ∧ (∀ a rest, a ≠ JArr.nil → jsizeA a ≤ fuel →
      parseItems fuel (renderArr a ++ ']' :: rest) = some (a, rest))
    ∧ (∀ o rest, o ≠ JObj.nil → jsizeO o ≤ fuel →
      parseObjItems fuel (renderObj o ++ '\x7d' :: rest) = some (o, rest)) := by
  intro fuel
  induction fuel with
  | zero =>
    refine ⟨?_, ?_, ?_⟩
    · intro j rest hf _
      have := jsize_pos j
      omega
    · intro a rest ha hf
      cases a with
      | nil => exact absurd rfl ha
      | cons x tl =>
        simp only [jsizeA] at hf
        omega
    · intro o rest ho hf
      cases o with
      | nil => exact absurd rfl ho
      | cons k v tl =>
        simp only [jsizeO] at hf
        omega
  | succ fuel ih =>
    obtain ⟨ih1, ih2, ih3⟩ := ih
    refine ⟨?_, ?_, ?_⟩
    · intro j rest hf hr
      cases j with
      | null =>
        rw [show render JVal.null ++ rest = 'n' :: 'u' :: 'l' :: 'l' :: rest from by simp [render]]
        rw [parseVal_step fuel _ _ (by decide)]
        rfl
      | bool b =>
        cases b with
        | false =>
          rw [show render (JVal.bool false) ++ rest = 'f' :: 'a' :: 'l' :: 's' :: 'e' :: rest from by
            simp [render]]
          rw [parseVal_step fuel _ _ (by decide)]
          rfl
        | true =>
          rw [show render (JVal.bool true) ++ rest = 't' :: 'r' :: 'u' :: 'e' :: rest from by
            simp [render]]
          rw [parseVal_step fuel _ _ (by decide)]
          rfl
      | num n =>
        obtain ⟨d, ds0, hds, hd⟩ := natDigits_cons n.natAbs
        have hval : digitsToNat (d :: ds0) = n.natAbs := by
          rw [← hds]
          exact digitsToNat_natDigits _
        by_cases hneg : n < 0
        · rw [show render (JVal.num n) ++ rest = '-' :: (natDigits n.natAbs ++ rest) from by
            simp [render, renderInt, hneg]]
          rw [parseVal_step fuel _ _ (by decide), parseHead_minus]
          rw [takeDigits_append _ _ (natDigits_all_digit _) (dFree_not_digit rest hr), hds]
          show parseNumTail true (d :: ds0) rest = some (JVal.num n, rest)
          rw [parseNumTail_dFree true _ rest hr]
          show some (JVal.num (-(digitsToNat (d :: ds0) : Int)), rest) = some (JVal.num n, rest)
          have heq : (-(digitsToNat (d :: ds0) : Int)) = n := by rw [hval]; omega
          rw [heq]
        · rw [show render (JVal.num n) ++ rest = natDigits n.natAbs ++ rest from by
            simp [render, renderInt, hneg]]
          rw [hds, List.cons_append, parseVal_step fuel _ _ (goodHead_of_isDigit d hd).1,
            parseHead_digit fuel d _ hd, ← List.cons_append, ← hds]
          rw [takeDigits_append _ _ (natDigits_all_digit _) (dFree_not_digit rest hr), hds]
          show parseNumTail false (d :: ds0) rest = some (JVal.num n, rest)
          rw [parseNumTail_dFree false _ rest hr]
          show some (JVal.num (digitsToNat (d :: ds0) : Int), rest) = some (JVal.num n, rest)
          have heq : ((digitsToNat (d :: ds0) : Int)) = n := by rw [hval]; omega
          rw [heq]
      | dec m e =>
        obtain ⟨d, ds0, hds, hd⟩ := natDigits_cons (m.natAbs / 10 ^ (e + 1))
        have hval : digitsToNat (d :: ds0) = m.natAbs / 10 ^ (e + 1) := by
          rw [← hds]
          exact digitsToNat_natDigits _
        have hfp : m.natAbs % 10 ^ (e + 1) < 10 ^ (e + 1) :=
          Nat.mod_lt _ (pow_pos (by omega) _)
        have hre : m.natAbs / 10 ^ (e + 1) * 10 ^ (e + 1) + m.natAbs % 10 ^ (e + 1)
            = m.natAbs := Nat.div_add_mod' _ _
        by_cases hneg : m < 0
        · rw [show render (JVal.dec m e) ++ rest
              = '-' :: (natDigits (m.natAbs / 10 ^ (e + 1))
                ++ ('.' :: (natDigitsPad (e + 1) (m.natAbs % 10 ^ (e + 1)) ++ rest))) from by
            simp [render, renderDec, hneg]]
          rw [parseVal_step fuel _ _ (by decide), parseHead_minus]
          rw [takeDigits_append _ _ (natDigits_all_digit _)
            (fun c cs h => by cases h; rfl), hds]
          show parseNumTail true (d :: ds0)
              ('.' :: (natDigitsPad (e + 1) (m.natAbs % 10 ^ (e + 1)) ++ rest))
            = some (JVal.dec m e, rest)
          rw [parseNumTail_dec true _ e _ hfp rest hr]
          show some (JVal.dec
              (-((digitsToNat (d :: ds0) * 10 ^ (e + 1) + m.natAbs % 10 ^ (e + 1) : Nat)
                : Int)) e, rest)
            = some (JVal.dec m e, rest)
          rw [hval, hre]
          have heq : (-(m.natAbs : Int)) = m := by omega
          rw [heq]
        · rw [show render (JVal.dec m e) ++ rest
              = natDigits (m.natAbs / 10 ^ (e + 1))
                ++ ('.' :: (natDigitsPad (e + 1) (m.natAbs % 10 ^ (e + 1)) ++ rest)) from by
            simp [render, renderDec, hneg]]
          rw [hds, List.cons_append, parseVal_step fuel _ _ (goodHead_of_isDigit d hd).1,
            parseHead_digit fuel d _ hd, ← List.cons_append, ← hds]
          rw [takeDigits_append _ _ (natDigits_all_digit _)
            (fun c cs h => by cases h; rfl), hds]
          show parseNumTail false (d :: ds0)
              ('.' :: (natDigitsPad (e + 1) (m.natAbs % 10 ^ (e + 1)) ++ rest))
            = some (JVal.dec m e, rest)
          rw [parseNumTail_dec false _ e _ hfp rest hr]
          show some (JVal.dec
              ((digitsToNat (d :: ds0) * 10 ^ (e + 1) + m.natAbs % 10 ^ (e + 1) : Nat)
                : Int) e, rest)
            = some (JVal.dec m e, rest)
          rw [hval, hre]
          have heq : ((m.natAbs : Int)) = m := by omega
          rw [heq]
      | str s =>
        rw [show render (JVal.str s) ++ rest = '"' :: (escList s.data ++ '"' :: rest) from by
          simp [render, renderStrLit]]
        rw [parseVal_step fuel _ _ (by decide), parseHead_quote]
        have hlen : s.data.length < (escList s.data ++ '"' :: rest).length + 1 := by
          have := escList_length_ge s.data
          simp only [List.length_append, List.length_cons]
          omega
        rw [parseStrBody_escList s.data _ [] rest hlen]
        rfl
      | arr a =>
        cases a with
        | nil =>
          rw [show render (JVal.arr JArr.nil) ++ rest = '[' :: ']' :: rest from by
            simp [render, renderArr]]
          rw [parseVal_step fuel _ _ (by decide)]
          rfl
        | cons x tl =>
          obtain ⟨c, m, hm, hc⟩ := renderArr_head x tl
          rw [show render (JVal.arr (JArr.cons x tl)) ++ rest
              = '[' :: (renderArr (JArr.cons x tl) ++ ']' :: rest) from by
            simp [render]]
          rw [parseVal_step fuel _ _ (by decide), parseHead_lbrack]
          rw [hm, List.cons_append, skipWs_cons_of c _ hc.1]
          show (if c = ']' then some (JVal.arr JArr.nil, m ++ ']' :: rest)
                else
                  match parseItems fuel (c :: (m ++ ']' :: rest)) with
                  | some (a, r) => some (JVal.arr a, r)
                  | none => none)
            = some (JVal.arr (JArr.cons x tl), rest)
          rw [if_neg hc.2.1, ← List.cons_append, ← hm]
          rw [ih2 (JArr.cons x tl) rest (by simp)
            (by have h := hf; simp only [jsize] at h; omega)]
      | obj o =>
        cases o with
        | nil =>
          rw [show render (JVal.obj JObj.nil) ++ rest = '\x7b' :: '\x7d' :: rest from by
            simp [render, renderObj]]
          rw [parseVal_step fuel _ _ (by decide)]
          rfl
        | cons k v tl =>
          obtain ⟨m, hm⟩ := renderObj_head k v tl
          rw [show render (JVal.obj (JObj.cons k v tl)) ++ rest
              = '\x7b' :: (renderObj (JObj.cons k v tl) ++ '\x7d' :: rest) from by
            simp [render]]
          rw [parseVal_step fuel _ _ (by decide), parseHead_lbrace]
          rw [hm, List.cons_append, skipWs_cons_of '"' _ (by decide)]
          show (if '"' = '\x7d' then some (JVal.obj JObj.nil, m ++ '\x7d' :: rest)
                else
                  match parseObjItems fuel ('"' :: (m ++ '\x7d' :: rest)) with
                  | some (o, r) => some (JVal.obj o, r)
                  | none => none)
            = some (JVal.obj (JObj.cons k v tl), rest)
          rw [if_neg (by decide), ← List.cons_append, ← hm]
          rw [ih3 (JObj.cons k v tl) rest (by simp)
            (by have h := hf; simp only [jsize] at h; omega)]
    · intro a rest ha hsa
      cases a with
      | nil => exact absurd rfl ha
      | cons x tl =>
        have hszx : jsize x ≤ fuel := by
          have h := hsa
          simp only [jsizeA] at h
          omega
        cases tl with
        | nil =>
          rw [show renderArr (JArr.cons x JArr.nil) ++ ']' :: rest = render x ++ ']' :: rest from by
            simp [renderArr]]
          rw [parseItems_eq, ih1 x (']' :: rest) hszx rfl]
          show itemsCont fuel x (']' :: rest) = some (JArr.cons x JArr.nil, rest)
          rfl
        | cons y tl2 =>
          obtain ⟨c, m, hm, hc⟩ := renderArr_head y tl2
          rw [show renderArr (JArr.cons x (JArr.cons y tl2)) ++ ']' :: rest
              = render x ++ (',' :: ' ' :: (renderArr (JArr.cons y tl2) ++ ']' :: rest)) from by
            simp [renderArr]]
          rw [parseItems_eq,
            ih1 x (',' :: ' ' :: (renderArr (JArr.cons y tl2) ++ ']' :: rest)) hszx rfl]
          show itemsCont fuel x (',' :: ' ' :: (renderArr (JArr.cons y tl2) ++ ']' :: rest))
            = some (JArr.cons x (JArr.cons y tl2), rest)
          rw [itemsCont_comma]
          rw [hm, List.cons_append, skipWs_cons_of c _ hc.1, ← List.cons_append, ← hm]
          rw [ih2 (JArr.cons y tl2) rest (by simp)
            (by have h := hsa; simp only [jsizeA] at h; simp only [jsizeA]
                have := jsize_pos x; omega)]
    · intro o rest ho hso
      cases o with
      | nil => exact absurd rfl ho
      | cons k v tl =>
        have hszv : jsize v ≤ fuel := by
          have h := hso
          simp only [jsizeO] at h
          omega
        obtain ⟨c, m, hm, hc⟩ := render_head v
        cases tl with
        | nil =>
          rw [show renderObj (JObj.cons k v JObj.nil) ++ '\x7d' :: rest
              = '"' :: (escList k.data ++ '"' :: (':' :: ' '
                :: (render v ++ '\x7d' :: rest))) from by
            simp [renderObj, renderStrLit]]
          rw [parseObjItems_quote, objEntry_parse fuel k.data _]
          show (match parseVal fuel (skipWs (' ' :: (render v ++ '\x7d' :: rest))) with
                | none => none
                | some (v, r3) => objCont fuel k v r3)
            = some (JObj.cons k v JObj.nil, rest)
          rw [show skipWs (' ' :: (render v ++ '\x7d' :: rest)) = render v ++ '\x7d' :: rest from by
            rw [skipWs_space, hm, List.cons_append, skipWs_cons_of c _ hc.1,
              ← List.cons_append, ← hm]]
          rw [ih1 v ('\x7d' :: rest) hszv rfl]
          show objCont fuel k v ('\x7d' :: rest) = some (JObj.cons k v JObj.nil, rest)
          rfl
        | cons k2 v2 tl2 =>
          obtain ⟨m2, hm2⟩ := renderObj_head k2 v2 tl2
          rw [show renderObj (JObj.cons k v (JObj.cons k2 v2 tl2)) ++ '\x7d' :: rest
              = '"' :: (escList k.data ++ '"' :: (':' :: ' ' :: (render v ++ ',' :: ' '
                :: (renderObj (JObj.cons k2 v2 tl2) ++ '\x7d' :: rest)))) from by
            simp [renderObj, renderStrLit]]
          rw [parseObjItems_quote, objEntry_parse fuel k.data _]
          show (match parseVal fuel (skipWs (' ' :: (render v ++ ',' :: ' '
                  :: (renderObj (JObj.cons k2 v2 tl2) ++ '\x7d' :: rest)))) with
                | none => none
                | some (v, r3) => objCont fuel k v r3)
            = some (JObj.cons k v (JObj.cons k2 v2 tl2), rest)
          rw [show skipWs (' ' :: (render v ++ ',' :: ' '
                :: (renderObj (JObj.cons k2 v2 tl2) ++ '\x7d' :: rest)))
              = render v ++ ',' :: ' ' :: (renderObj (JObj.cons k2 v2 tl2) ++ '\x7d' :: rest) from by
            rw [skipWs_space, hm, List.cons_append, skipWs_cons_of c _ hc.1,
              ← List.cons_append, ← hm]]
          rw [ih1 v (',' :: ' ' :: (renderObj (JObj.cons k2 v2 tl2) ++ '\x7d' :: rest))
            hszv rfl]
          show objCont fuel k v (',' :: ' '
              :: (renderObj (JObj.cons k2 v2 tl2) ++ '\x7d' :: rest))
            = some (JObj.cons k v (JObj.cons k2 v2 tl2), rest)
          rw [objCont_comma]
          rw [hm2, List.cons_append, skipWs_cons_of '"' _ (by decide), ← List.cons_append, ← hm2]
          rw [ih3 (JObj.cons k2 v2 tl2) rest (by simp)
            (by have h := hso; simp only [jsizeO] at h; simp only [jsizeO]
                have := jsize_pos v; omega)]

/-- Round trip for a single value: rendering then parsing is the
identity, with any sufficient fuel. -/
theorem parseVal_render (j : JVal) (fuel : Nat) (hf : jsize j ≤ fuel) :
    parseVal fuel (render j) = some (j, []) := by
  have h := (parse_render_all fuel).1 j [] hf (by decide)
  simpa using h

/-! ## UTC timestamps

`time.gmtime()` broken-down UTC time and the format string
`"%Y-%m-%dT%H:%M:%SZ"` used by both bridges. -/

structure Tm where
  year : Nat
  mon : Nat
  mday : Nat
  hour : Nat
  minute : Nat
  sec : Nat
deriving DecidableEq

/-- Zero-padded two-digit field, as `strftime` emits for `%m %d %H %M %S`. -/
def pad2 (n : Nat) : List Char := [Nat.digitChar (n / 10 % 10), Nat.digitChar (n % 10)]

/-- Zero-padded four-digit year, as `strftime` emits for `%Y`. -/
def pad4 (n : Nat) : List Char :=
  [Nat.digitChar (n / 1000 % 10), Nat.digitChar (n / 100 % 10),
   Nat.digitChar (n / 10 % 10), Nat.digitChar (n % 10)]

/-- `time.strftime("%Y-%m-%dT%H:%M:%SZ", t)`. -/
def formatIsoList (t : Tm) : List Char :=
  pad4 t.year ++ '-' :: pad2 t.mon ++ '-' :: pad2 t.mday ++ 'T' :: pad2 t.hour
    ++ ':' :: pad2 t.minute ++ ':' :: pad2 t.sec ++ ['Z']

def formatIso (t : Tm) : String := String.mk (formatIsoList t)

/-- Strict parser for `YYYY-MM-DDTHH:MM:SSZ`: a UTC ISO-8601 timestamp
with a literal `Z` suffix. -/
def parseIso8601Z (s : String) : Option Tm :=
  match s.data with
  | [y1, y2, y3, y4, s1, m1, m2, s2, d1, d2, s3, h1, h2, s4, mi1, mi2, s5, e1, e2, z] =>
    if y1.isDigit && y2.isDigit && y3.isDigit && y4.isDigit
        && (s1 = '-') && m1.isDigit && m2.isDigit && (s2 = '-') && d1.isDigit && d2.isDigit
        && (s3 = 'T') && h1.isDigit && h2.isDigit && (s4 = ':') && mi1.isDigit && mi2.isDigit
        && (s5 = ':') && e1.isDigit && e2.isDigit && (z = 'Z') then
      some ⟨((dval y1 * 10 + dval y2) * 10 + dval y3) * 10 + dval y4,
            dval m1 * 10 + dval m2, dval d1 * 10 + dval d2,
            dval h1 * 10 + dval h2, dval mi1 * 10 + dval mi2, dval e1 * 10 + dval e2⟩
    else none
  | _ => none

/-- A broken-down time whose fields fit the fixed-width format.  Real
`gmtime()` output always satisfies these bounds. -/
def tmValid (t : Tm) : Bool :=
  decide (t.year < 10000) && decide (t.mon < 100) && decide (t.mday < 100)
    && decide (t.hour < 100) && decide (t.minute < 100) && decide (t.sec < 100)

theorem dval_digitChar_mod (n : Nat) : dval (Nat.digitChar (n % 10)) = n % 10 :=
  dval_digitChar _ (Nat.mod_lt _ (by omega))

theorem digitChar_isDigit_mod (n : Nat) : (Nat.digitChar (n % 10)).isDigit = true :=
  digitChar_isDigit _ (Nat.mod_lt _ (by omega))

/-- The emitted timestamp parses back to the same broken-down time. -/
theorem parse_format_iso (t : Tm) (h : tmValid t = true) :
    parseIso8601Z (formatIso t) = some t := by
  obtain ⟨y, mo, d, hh, mi, s⟩ := t
  simp only [tmValid, Bool.and_eq_true, decide_eq_true_eq] at h
  obtain ⟨⟨⟨⟨⟨h1, h2⟩, h3⟩, h4⟩, h5⟩, h6⟩ := h
  simp only [formatIso, formatIsoList, pad4, pad2]
  simp only [parseIso8601Z, List.cons_append, List.nil_append]
  rw [if_pos]
  · simp only [dval_digitChar_mod, Option.some.injEq, Tm.mk.injEq]
    refine ⟨by omega, by omega, by omega, by omega, by omega, by omega⟩
  · simp [digitChar_isDigit_mod]

/-- The emitted timestamp ends in a literal `Z`. -/
theorem formatIso_endsZ (t : Tm) : ∃ p, (formatIso t).data = p ++ ['Z'] := by
  refine ⟨pad4 t.year ++ '-' :: pad2 t.mon ++ '-' :: pad2 t.mday ++ 'T' :: pad2 t.hour
    ++ ':' :: pad2 t.minute ++ ':' :: pad2 t.sec, ?_⟩
  simp [formatIso, formatIsoList]

theorem plainChar_digitCharMod (n : Nat) : plainChar (Nat.digitChar (n % 10)) = true := by
  have hlt : n % 10 < 10 := Nat.mod_lt _ (by omega)
  have ht : (Nat.digitChar (n % 10)).toNat = 48 + n % 10 := digitChar_toNat _ hlt
  have hq : Nat.digitChar (n % 10) ≠ '"' := by
    intro he
    rw [he] at ht
    have h34 : (34 : Nat) = 48 + n % 10 := ht
    omega
  have hb : Nat.digitChar (n % 10) ≠ '\\' := by
    intro he
    rw [he] at ht
    have h92 : (92 : Nat) = 48 + n % 10 := ht
    omega
  simp only [plainChar, Bool.and_eq_true, decide_eq_true_eq, bne_iff_ne, ne_eq]
  exact ⟨⟨⟨by omega, by omega⟩, hq⟩, hb⟩

/-- Every character of the timestamp is plain, so a timestamp embedded in
a JSON envelope survives serialization untouched. -/
theorem formatIso_plain (t : Tm) : plainStr (formatIso t) = true := by
  simp only [plainStr, formatIso, formatIsoList, pad4, pad2, List.cons_append, List.nil_append]
  simp [List.all_cons, plainChar_digitCharMod,
    (by decide : plainChar '-' = true), (by decide : plainChar 'T' = true),
    (by decide : plainChar ':' = true), (by decide : plainChar 'Z' = true)]

/-! ## NATS bridge (`pmoves_nats_bridge.py`)

The envelope codec `_envelope`, the lazily connected global handle
(`_nc`, `_ensure_connected`, `_safe_publish`, `close`) and the payload
builders of the three publish entry points.  The fresh `uuid.uuid4()`
and the `gmtime()` clock are injected as parameters (`idStr`, `tm`);
handles are abstract tokens (`Nat`). -/

/-- `_envelope(subject, payload)` from `pmoves_nats_bridge.py` lines
70-80, with the random id and the clock injected.  Python dicts preserve
insertion order, and `json.dumps` serializes fields in that order. -/
def envelope (idStr : String) (tm : Tm) (subject : String) (payload : JVal) : JVal :=
  JVal.obj (JObj.cons "id" (JVal.str idStr)
    (JObj.cons "topic" (JVal.str subject)
    (JObj.cons "ts" (JVal.str (formatIso tm))
    (JObj.cons "version" (JVal.str "v1")
    (JObj.cons "source" (JVal.str "llama-throughput-lab")
    (JObj.cons "payload" payload JObj.nil))))))

/-- The bytes put on the wire: `json.dumps(...).encode()` (UTF-8 text). -/
def envelopeBytes (idStr : String) (tm : Tm) (subject : String) (payload : JVal) : List Char :=
  render (envelope idStr tm subject payload)

/-- Outcome of one connection attempt (`_SyncNats(NATS_URL)`): a fresh
handle, or any exception (network error, missing `nats` library). -/
inductive ConnectOutcome where
  | ok (h : Nat)
  | fail
deriving DecidableEq

/-- `_ensure_connected()`: returns `(new _nc, returned client)`.  When
`_nc` is already set it is returned as is; otherwise one connection
attempt runs, and on failure the `except` block returns `None` with the
global left unset (the assignment never executed). -/
def ensureConnected (nc : Option Nat) (out : ConnectOutcome) : Option Nat × Option Nat :=
  match nc with
  | some h => (some h, some h)
  | none =>
    match out with
    | ConnectOutcome.ok h => (some h, some h)
    | ConnectOutcome.fail => (none, none)

/-- `_safe_publish(subject, payload)` state effect: `(new _nc, delivered)`.
`pubOk` tells whether `nc.publish(...)` succeeded; an exception there is
swallowed by `except Exception: pass`, which leaves `_nc` untouched. -/
def safePublish (nc : Option Nat) (out : ConnectOutcome) (pubOk : Bool) : Option Nat × Bool :=
  match ensureConnected nc out with
  | (nc2, none) => (nc2, false)
  | (nc2, some _) => (nc2, pubOk)

/-- `close()`: swallows any error from `_nc.close()` (`closeFails`) and
always ends with `_nc = None`; when `_nc` is already `None` the body is
skipped entirely. -/
def closeConn (nc : Option Nat) (_closeFails : Bool) : Option Nat :=
  match nc with
  | none => none
  | some _ => none

/-! ## Association lists (Python dict operations) -/

def setA {α β : Type} [DecidableEq α] (k : α) (v : β) : List (α × β) → List (α × β)
  | [] => [(k, v)]
  | (k0, v0) :: rest => if k0 = k then (k0, v) :: rest else (k0, v0) :: setA k v rest

def getA {α β : Type} [DecidableEq α] : List (α × β) → α → Option β
  | [], _ => none
  | (k0, v0) :: rest, k => if k0 = k then some v0 else getA rest k

theorem getA_setA_same {α β : Type} [DecidableEq α] (k : α) (v : β) (l : List (α × β)) :
    getA (setA k v l) k = some v := by
  induction l with
  | nil => simp [setA, getA]
  | cons kv rest ih =>
    obtain ⟨k0, v0⟩ := kv
    by_cases h : k0 = k
    · simp [setA, getA, h]
    · simp [setA, getA, h, ih]

theorem getA_setA_other {α β : Type} [DecidableEq α] (k k2 : α) (v : β) (l : List (α × β))
    (h : k2 ≠ k) : getA (setA k v l) k2 = getA l k2 := by
  have h2 : k ≠ k2 := Ne.symm h
  induction l with
  | nil => simp [setA, getA, h2]
  | cons kv rest ih =>
    obtain ⟨k0, v0⟩ := kv
    by_cases h0 : k0 = k
    · subst h0
      simp [setA, getA, h2]
    · simp only [setA, if_neg h0]
      by_cases h3 : k0 = k2
      · simp [getA, h3]
      · simp [getA, h3, ih]

theorem getA_eq_none {α β : Type} [DecidableEq α] (l : List (α × β)) (k : α)
    (h : k ∉ l.map Prod.fst) : getA l k = none := by
  induction l with
  | nil => rfl
  | cons kv rest ih =>
    obtain ⟨k0, v0⟩ := kv
    simp only [List.map_cons, List.mem_cons] at h
    push_neg at h
    have : k0 ≠ k := fun he => h.1 (he ▸ rfl)
    simp [getA, this, ih h.2]

/-- Lookup after folding `setA` over an association list with distinct
keys (the entries of a Python dict): entries of `row` win over the
initial dict `d`. -/
theorem getA_foldl_setA {β : Type} (row : List (String × β)) (d : List (String × β)) (k : String)
    (hrow : (row.map Prod.fst).Nodup) :
    getA (row.foldl (fun acc kv => setA kv.1 kv.2 acc) d) k
      = (match getA row k with
         | some v => some v
         | none => getA d k) := by
  induction row generalizing d with
  | nil => simp [getA]
  | cons kv rest ih =>
    obtain ⟨k0, v0⟩ := kv
    simp only [List.map_cons, List.nodup_cons] at hrow
    rw [List.foldl_cons, ih (setA k0 v0 d) hrow.2]
    by_cases h : k0 = k
    · subst h
      rw [getA_eq_none rest k0 hrow.1]
      simp [getA, getA_setA_same]
    · simp [getA, h, getA_setA_other k0 k v0 d (Ne.symm h)]

/-- The payload `publish_cell` passes to `_safe_publish`:
`{"sweep_type": sweep_type, **row}`.  The dict literal inserts
`sweep_type` first, then merges the entries of `row` in order,
overwriting on key collision. -/
def publish_cell_payload (sweep_type : String) (row : List (String × JVal)) :
    List (String × JVal) :=
  row.foldl (fun acc kv => setA kv.1 kv.2 acc) [("sweep_type", JVal.str sweep_type)]

/-! ## Metrics module (`pmoves_metrics.py`)

The Prometheus client is modelled as an in-process registry: a labelled
gauge is a finite map from its label tuple to its current value, a
labelled counter a finite map to its running total (implicitly `0`
before the first increment, as in `prometheus_client`).  `_HAS_PROM` is
the import-time flag. -/

structure Registry where
  throughput : List ((String × String × String) × Rat)
  sweeps : List (String × Nat)
  errors : List (String × Nat)
  lastSweep : Option Rat
  best : List ((String × String) × Rat)
deriving DecidableEq

def emptyRegistry : Registry := ⟨[], [], [], none, []⟩

/-- `update_cell(model, sweep_type, config_label, throughput_tps, errors=0)`.
The error count is a `Nat`: `if errors:` is its non-zero test (a negative
count would make `Counter.inc` raise, a caller bug per the error-handling
design). -/
def update_cell (hasProm : Bool) (reg : Registry) (model sweep_type config_label : String)
    (throughput_tps : Rat) (errors : Nat) : Registry :=
  if hasProm = false then reg
  else
    let reg1 : Registry :=
      ⟨setA (model, sweep_type, config_label) throughput_tps reg.throughput,
       reg.sweeps, reg.errors, reg.lastSweep, reg.best⟩
    if errors ≠ 0 then
      ⟨reg1.throughput, reg1.sweeps,
       setA sweep_type ((getA reg1.errors sweep_type).getD 0 + errors) reg1.errors,
       reg1.lastSweep, reg1.best⟩
    else reg1

/-- `update_sweep(model, sweep_type, best_throughput)`; `now` injects
`time.time()`. -/
def update_sweep (hasProm : Bool) (reg : Registry) (model sweep_type : String)
    (best_throughput : Rat) (now : Rat) : Registry :=
  if hasProm = false then reg
  else
    ⟨reg.throughput,
     setA sweep_type ((getA reg.sweeps sweep_type).getD 0 + 1) reg.sweeps,
     reg.errors, some now,
     setA (model, sweep_type) best_throughput reg.best⟩

def intStr (n : Int) : String := String.mk (renderInt n)

def natStr (n : Nat) : String := String.mk (natDigits n)

/-- Rendering of a gauge/counter value in the exposition text (exact
rational, `num/den`). -/
def ratStr (q : Rat) : String := intStr q.num ++ "/" ++ natStr q.den

def expoLine (name : String) (labels : List (String × String)) (v : String) : String :=
  name
    ++ "\x7b" ++ String.intercalate "," (labels.map (fun kv => kv.1 ++ "=\"" ++ kv.2 ++ "\"")) ++ "\x7d"
    ++ " " ++ v ++ "\n"

/-- `generate_latest()`: the exposition-format snapshot of the five
metric families. -/
def generate_latest (reg : Registry) : String :=
  String.join (reg.throughput.map (fun e =>
      expoLine "llama_benchmark_throughput_tps"
        [("model", e.1.1), ("sweep_type", e.1.2.1), ("config", e.1.2.2)] (ratStr e.2)))
    ++ String.join (reg.sweeps.map (fun e =>
      expoLine "llama_benchmark_sweeps_total" [("sweep_type", e.1)] (natStr e.2)))
    ++ String.join (reg.errors.map (fun e =>
      expoLine "llama_benchmark_errors_total" [("sweep_type", e.1)] (natStr e.2)))
    ++ (match reg.lastSweep with
        | none => ""
        | some t => expoLine "llama_benchmark_last_sweep_timestamp" [] (ratStr t))
    ++ String.join (reg.best.map (fun e =>
      expoLine "llama_benchmark_best_throughput_tps"
        [("model", e.1.1), ("sweep_type", e.1.2)] (ratStr e.2)))

def CONTENT_TYPE_LATEST : String := "text/plain; version=0.0.4; charset=utf-8"

structure HResp where
  status : Nat
  contentType : Option String
  body : String
deriving DecidableEq

/-- `_Handler.do_GET`: `/healthz` unconditionally serves `{"ok":true}`;
`/metrics` serves the registry snapshot only when the import of
`prometheus_client` succeeded; everything else is `send_error(404)`
(whose HTML error page body is not modelled further). -/
def do_GET (hasProm : Bool) (reg : Registry) (path : String) : HResp :=
  if path = "/healthz" then
    ⟨200, some "application/json", "\x7b\"ok\":true\x7d"⟩
  else if path = "/metrics" ∧ hasProm = true then
    ⟨200, some CONTENT_TYPE_LATEST, generate_latest reg⟩
  else
    ⟨404, some "text/html;charset=utf-8", ""⟩

/-- `start_server(port, background)` acting on the module-global
`_server` (a bound listener, identified by its port).  Result: the new
`_server` and the bind performed — `none` when the early return fired
because a listener already existed, `some (port, background)` when a new
`HTTPServer` was created on that port. -/
def start_server (server : Option Nat) (port : Nat) (background : Bool) :
    Option Nat × Option (Nat × Bool) :=
  match server with
  | some s => (some s, none)
  | none => (some port, some (port, background))

/-! ## CHIT bridge (`pmoves_chit_bridge.py`)

HTTP traffic is abstracted by an oracle `http : Req → Except PyExc
String` (the response body, or the exception `urlopen`/reading raised)
and the filesystem by `files : String → Except PyExc String`.  Exception
classes are collapsed to the four that matter for control flow; note
`URLError` is a subclass of `OSError` in Python 3, while
`json.JSONDecodeError` is a `ValueError`. -/

inductive PyExc where
  | osError
  | jsonDecodeError
  | attributeError
  | typeError
deriving DecidableEq

/-- `except (URLError, OSError)` in `archive_csv_to_minio`. -/
def caughtByArchive : PyExc → Bool
  | PyExc.osError => true
  | _ => false

/-- `except (URLError, OSError, json.JSONDecodeError)` in `_post_json`. -/
def caughtByPostJson : PyExc → Bool
  | PyExc.osError => true
  | PyExc.jsonDecodeError => true
  | _ => false

/-- `json.loads` on a response body: full input must parse (modulo
trailing whitespace), else `json.JSONDecodeError`. -/
def loads (s : String) : Except PyExc JVal :=
  match parseVal (s.data.length + 1) s.data with
  | some (j, rest) => if skipWs rest = [] then Except.ok j else Except.error PyExc.jsonDecodeError
  | none => Except.error PyExc.jsonDecodeError

structure Req where
  url : String
  method : String
  auth : Option String
  contentType : Option String
  body : Option String
deriving DecidableEq

/-- `urllib.parse.quote_plus` on ASCII text (uppercase percent escapes). -/
def hexDigUp (n : Nat) : Char := if n < 10 then Nat.digitChar n else Char.ofNat (55 + n)

def quoteChar (c : Char) : List Char :=
  if c.isAlphanum then [c]
  else if c = '_' ∨ c = '.' ∨ c = '-' ∨ c = '~' then [c]
  else if c = ' ' then ['+']
  else ['%', hexDigUp (c.toNat / 16 % 16), hexDigUp (c.toNat % 16)]

def quoteStr (s : String) : String :=
  String.mk (s.data.foldr (fun c acc => quoteChar c ++ acc) [])

/-- `urllib.parse.urlencode` with the default `quote_via=quote_plus`. -/
def urlencode (ps : List (String × String)) : String :=
  String.intercalate "&" (ps.map (fun kv => quoteStr kv.1 ++ "=" ++ quoteStr kv.2))

/-- `os.path.basename`. -/
def basename (p : String) : String :=
  String.mk (p.data.foldl (fun acc c => if c = '/' then [] else acc ++ [c]) [])

/-- `data.get("url")` on a decoded response: `AttributeError` when the
JSON document is not an object. -/
def dictGet (j : JVal) (key : String) : Except PyExc (Option JVal) :=
  match j with
  | JVal.obj o => Except.ok (lookupO o key)
  | _ => Except.error PyExc.attributeError

/-- The `except (URLError, OSError): return None` wrapper around the
body of `archive_csv_to_minio`: caught exceptions become `None`, others
propagate to the caller. -/
def archHandle (e : PyExc) : Except PyExc (Option JVal) :=
  if caughtByArchive e = true then Except.ok none else Except.error e

def defaultKey (csv_path : String) : String := "llama-throughput-lab/" ++ basename csv_path

/-- `GET {PRESIGN_URL}/presign?bucket=&key=&method=` with the bearer
secret. -/
def presignReq (presignUrl secret bucket key meth : String) : Req :=
  ⟨presignUrl ++ "/presign?" ++ urlencode [("bucket", bucket), ("key", key), ("method", meth)],
   "GET", some ("Bearer " ++ secret), none, none⟩

/-- The raw `PUT` of the file bytes to the presigned upload URL. -/
def putReq (uploadUrl contents : String) : Req :=
  ⟨uploadUrl, "PUT", none, some "text/csv", some contents⟩

/-- `archive_csv_to_minio(csv_path, bucket, object_key)`.  Returns the
call's outcome — `Except.ok r` for a normal return `r` (`data.get("url")`
of the second presign, or `None`), `Except.error e` for an uncaught
exception — paired with the trace of HTTP requests issued, in order. -/
def archive_csv_to_minio (secret presignUrl : String) (http : Req → Except PyExc String)
    (files : String → Except PyExc String) (csv_path bucket : String)
    (object_key : Option String) : Except PyExc (Option JVal) × List Req :=
  if secret = "" then (Except.ok none, [])
  else
    let key := object_key.getD (defaultKey csv_path)
    let req1 := presignReq presignUrl secret bucket key "PUT"
    match http req1 with
    | Except.error e => (archHandle e, [req1])
    | Except.ok body1 =>
      match loads body1 with
      | Except.error e => (archHandle e, [req1])
      | Except.ok data1 =>
        match dictGet data1 "url" with
        | Except.error e => (archHandle e, [req1])
        | Except.ok uploadUrl =>
          match uploadUrl with
          | none => (Except.ok none, [req1])
          | some u =>
            if truthy u = false then (Except.ok none, [req1])
            else
              match u with
              | JVal.str us =>
                match files csv_path with
                | Except.error e => (archHandle e, [req1])
                | Except.ok contents =>
                  let req2 := putReq us contents
                  match http req2 with
                  | Except.error e => (archHandle e, [req1, req2])
                  | Except.ok _ =>
                    let req3 := presignReq presignUrl secret bucket key "GET"
                    match http req3 with
                    | Except.error e => (archHandle e, [req1, req2, req3])
                    | Except.ok body3 =>
                      match loads body3 with
                      | Except.error e => (archHandle e, [req1, req2, req3])
                      | Except.ok data3 =>
                        match dictGet data3 "url" with
                        | Except.error e => (archHandle e, [req1, req2, req3])
                        | Except.ok res => (Except.ok res, [req1, req2, req3])
              | _ => (archHandle PyExc.typeError, [req1])

/-! ## `store_reasoning` (`pmoves_chit_bridge.py` lines 41-75)

The values of the `best` dict: ints, floats exactly representable in
tenths (all that `%.1f` renders losslessly), and strings. -/

inductive PyVal where
  | int (n : Int)
  | float1 (tenths : Int)
  | str (s : String)
deriving DecidableEq

def PyVal.isNum : PyVal → Bool
  | PyVal.int _ => true
  | PyVal.float1 _ => true
  | PyVal.str _ => false

/-- Python `f"{x:.1f}"` on a number (on a string it would raise — a
caller bug outside the degraded-dependency taxonomy, so unmodelled). -/
def fmt1 : PyVal → String
  | PyVal.int n => intStr n ++ ".0"
  | PyVal.float1 t =>
    (if t < 0 then "-" else "") ++ natStr (t.natAbs / 10) ++ "." ++ natStr (t.natAbs % 10)
  | PyVal.str _ => ""

/-- Python `str(v)` as used in `f"{k}={v}"`. -/
def pyStr : PyVal → String
  | PyVal.int n => intStr n
  | PyVal.float1 t => fmt1 (PyVal.float1 t)
  | PyVal.str s => s

/-- `{k: v for k, v in best.items() if k != "throughput"}`. -/
def bestConfig (best : List (String × PyVal)) : List (String × PyVal) :=
  best.filter (fun kv => kv.1 != "throughput")

/-- The `content` f-string of `store_reasoning`. -/
def contentLine (model_path : String) (best : List (String × PyVal)) : String :=
  "Model " ++ basename model_path ++ " achieves "
    ++ fmt1 ((getA best "throughput").getD (PyVal.int 0)) ++ " tok/s at "
    ++ String.intercalate ", " ((bestConfig best).map (fun kv => kv.1 ++ "=" ++ pyStr kv.2))

/-- The record `store_reasoning` POSTs to `{CIPHER_MEMORY_URL}/api/memory`
(metadata fields flattened). -/
structure ReasoningRecord where
  rtype : String
  domain : String
  content : String
  metaModel : String
  metaBestThroughputTps : PyVal
  metaBestConfig : List (String × PyVal)
  metaSweepType : String
  metaCsvPath : String
  metaTimestamp : String
  metaGpuType : Option String
deriving DecidableEq

/-- `store_reasoning(sweep_type, model_path, best, csv_path, gpu_type)`
payload construction; `tm` injects `time.gmtime()`.  `gpu_type` is added
only when truthy (`if gpu_type:`). -/
def store_reasoning (sweep_type model_path : String) (best : List (String × PyVal))
    (csv_path : String) (gpu_type : Option String) (tm : Tm) : ReasoningRecord :=
  ⟨"reasoning",
   "llama_inference_optimization",
   contentLine model_path best,
   model_path,
   (getA best "throughput").getD (PyVal.int 0),
   bestConfig best,
   sweep_type,
   csv_path,
   formatIso tm,
   match gpu_type with
   | none => none
   | some g => if g = "" then none else some g⟩

/-! ## Claims -/

/-- C2 counterexample: a failure during `nc.publish` on a connected
handle (handle `0`, `pubOk = false`) does not discard the handle — the
global `_nc` still holds it, contrary to the claimed transition back to
`DISCONNECTED`. -/
theorem claim_C2_publish_failure_keeps_handle :
    ¬ (safePublish (some 0) ConnectOutcome.fail false).fst = none := by
  decide

/-- C2 (amended): the adapter's global handle obeys: a failure while
connecting leaves the handle unset; a successful connect memoizes it and
repeat calls reuse it without reconnecting; a failure during a publish
on a connected handle is swallowed but the handle is retained (the next
publish reuses the same handle rather than retrying the connect
sequence); and `close()` always clears the handle, a `close()` on a
never-connected adapter being a no-op. -/
theorem claim_C2_adapter_state_machine (h : Nat) (out : ConnectOutcome) (pubOk : Bool)
    (st : Option Nat) (closeFails : Bool) :
    ensureConnected none ConnectOutcome.fail = (none, none)
    ∧ ensureConnected none (ConnectOutcome.ok h) = (some h, some h)
    ∧ ensureConnected (some h) out = (some h, some h)
    ∧ (safePublish (some h) out pubOk).fst = some h
    ∧ closeConn st closeFails = none := by
  refine ⟨rfl, rfl, rfl, rfl, ?_⟩
  cases st <;> rfl

/-- C8: with the shared secret unset, `archive_csv_to_minio` returns
`None` immediately: no HTTP request is issued and the filesystem is
never touched, whatever the oracles and arguments are. -/
theorem claim_C8_missing_secret (presignUrl : String) (http : Req → Except PyExc String)
    (files : String → Except PyExc String) (csv_path bucket : String)
    (object_key : Option String) :
    archive_csv_to_minio "" presignUrl http files csv_path bucket object_key
      = (Except.ok none, []) := rfl

/-- C9: `start_server` is idempotent — whenever a listener `s` is
already bound, a second call returns at once with the `_server` global
(and hence its port) unchanged and performs no bind, for every requested
port and background flag. -/
theorem claim_C9_start_server_idempotent (s port : Nat) (background : Bool) :
    start_server (some s) port background = (some s, none) := rfl

/-- C10: the payload of `publish_cell` is `row` merged over the initial
`sweep_type` entry: a `"sweep_type"` key present in `row` silently
overrides the argument, an absent one leaves the argument's value, and
every other key reads back exactly as in `row`. -/
theorem claim_C10_publish_cell_merge (sweep_type : String) (row : List (String × JVal))
    (hrow : (row.map Prod.fst).Nodup) :
    (∀ v, getA row "sweep_type" = some v →
      getA (publish_cell_payload sweep_type row) "sweep_type" = some v)
    ∧ (getA row "sweep_type" = none →
      getA (publish_cell_payload sweep_type row) "sweep_type" = some (JVal.str sweep_type))
    ∧ (∀ k, k ≠ "sweep_type" →
      getA (publish_cell_payload sweep_type row) k = getA row k) := by
  refine ⟨?_, ?_, ?_⟩
  · intro v hv
    have h := getA_foldl_setA row [("sweep_type", JVal.str sweep_type)] "sweep_type" hrow
    rw [hv] at h
    unfold publish_cell_payload
    exact h
  · intro hv
    have h := getA_foldl_setA row [("sweep_type", JVal.str sweep_type)] "sweep_type" hrow
    rw [hv] at h
    unfold publish_cell_payload
    rw [h]
    rfl
  · intro k hk
    have h := getA_foldl_setA row [("sweep_type", JVal.str sweep_type)] k hrow
    unfold publish_cell_payload
    rw [h]
    cases hv : getA row k with
    | some v => rfl
    | none => simp [getA, Ne.symm hk]

theorem claim_C10_witness :
    getA (publish_cell_payload "batch"
        [("sweep_type", JVal.str "override"), ("throughput_tps", JVal.num 42)]) "sweep_type"
      = some (JVal.str "override")
    ∧ getA (publish_cell_payload "batch" [("throughput_tps", JVal.num 42)]) "sweep_type"
      = some (JVal.str "batch")
    ∧ getA (publish_cell_payload "batch" [("throughput_tps", JVal.num 42)]) "throughput_tps"
      = some (JVal.num 42) := by
  refine ⟨?_, ?_, ?_⟩
  · exact (claim_C10_publish_cell_merge "batch"
      [("sweep_type", JVal.str "override"), ("throughput_tps", JVal.num 42)]
      (by decide)).1 (JVal.str "override") rfl
  · exact (claim_C10_publish_cell_merge "batch" [("throughput_tps", JVal.num 42)]
      (by decide)).2.1 rfl
  · exact ((claim_C10_publish_cell_merge "batch" [("throughput_tps", JVal.num 42)]
      (by decide)).2.2 "throughput_tps" (by decide)).trans rfl

/-- C5: `store_reasoning` POSTs a record whose `metadata.best_config` is
`best` with the `"throughput"` key removed and all other entries kept in
order, and whose `content` contains the `%.1f`-rendered throughput value
as a substring; in particular, for
`best = {"throughput": 42.5, "batch": 8}` the best config is exactly
`{"batch": 8}` and the content contains `"42.5"`. -/
theorem claim_C5_store_reasoning (sweep_type model_path csv_path : String)
    (best : List (String × PyVal)) (gpu_type : Option String) (tm : Tm) :
    (store_reasoning sweep_type model_path best csv_path gpu_type tm).metaBestConfig
      = best.filter (fun kv => kv.1 != "throughput")
    ∧ (∃ pre post, (store_reasoning sweep_type model_path best csv_path gpu_type tm).content
        = pre ++ fmt1 ((getA best "throughput").getD (PyVal.int 0)) ++ post)
    ∧ (store_reasoning "batch" "/m/x.gguf"
        [("throughput", PyVal.float1 425), ("batch", PyVal.int 8)]
        "/tmp/r.csv" none tm).metaBestConfig = [("batch", PyVal.int 8)]
    ∧ (∃ pre post, (store_reasoning "batch" "/m/x.gguf"
        [("throughput", PyVal.float1 425), ("batch", PyVal.int 8)]
        "/tmp/r.csv" none tm).content = pre ++ "42.5" ++ post) := by
  refine ⟨rfl, ?_, rfl, ?_⟩
  · refine ⟨"Model " ++ basename model_path ++ " achieves ",
      " tok/s at "
        ++ String.intercalate ", " ((bestConfig best).map (fun kv => kv.1 ++ "=" ++ pyStr kv.2)),
      ?_⟩
    simp [store_reasoning, contentLine, String.append_assoc]
  · exact ⟨"Model x.gguf achieves ", " tok/s at batch=8", rfl⟩

/-- C6: `/healthz` is answered `200 application/json {"ok":true}`
unconditionally; `/metrics` is the exposition snapshot with 200 exactly
when the metrics library imported, and 404 otherwise; any other path is
404. -/
theorem claim_C6_http_routes (hasProm : Bool) (reg : Registry) (path : String) :
    (path = "/healthz" →
      do_GET hasProm reg path = ⟨200, some "application/json", "\x7b\"ok\":true\x7d"⟩)
    ∧ (path = "/metrics" →
        (hasProm = true →
          do_GET hasProm reg path = ⟨200, some CONTENT_TYPE_LATEST, generate_latest reg⟩)
        ∧ (hasProm = false → (do_GET hasProm reg path).status = 404))
    ∧ (path ≠ "/healthz" → path ≠ "/metrics" → (do_GET hasProm reg path).status = 404) := by
  refine ⟨?_, ?_, ?_⟩
  · intro hp
    subst hp
    rfl
  · intro hp
    subst hp
    refine ⟨?_, ?_⟩
    · intro hh
      subst hh
      rfl
    · intro hh
      subst hh
      rfl
  · intro h1 h2
    simp [do_GET, h1, h2]

theorem claim_C6_witness :
    do_GET false emptyRegistry "/healthz" = ⟨200, some "application/json", "\x7b\"ok\":true\x7d"⟩
    ∧ (do_GET false emptyRegistry "/metrics").status = 404
    ∧ do_GET true emptyRegistry "/metrics"
      = ⟨200, some CONTENT_TYPE_LATEST, generate_latest emptyRegistry⟩
    ∧ (do_GET true emptyRegistry "/other").status = 404 :=
  ⟨(claim_C6_http_routes false emptyRegistry "/healthz").1 rfl,
   ((claim_C6_http_routes false emptyRegistry "/metrics").2.1 rfl).2 rfl,
   ((claim_C6_http_routes true emptyRegistry "/metrics").2.1 rfl).1 rfl,
   (claim_C6_http_routes true emptyRegistry "/other").2.2 (by decide) (by decide)⟩

/-- C7: `update_cell` sets the throughput gauge for exactly the
`(model, sweep_type, config)` series — a second call with a different
config label creates a second series and leaves the first intact;
the error counter for the sweep type is incremented by the error count
exactly when it is positive; and with the metrics library unavailable
the whole call is a no-op. -/
theorem claim_C7_update_cell (reg : Registry) (model sweep_type config_label : String)
    (v : Rat) (e : Nat) :
    getA (update_cell true reg model sweep_type config_label v e).throughput
        (model, sweep_type, config_label) = some v
    ∧ (∀ config2 v2 e2, config2 ≠ config_label →
        getA (update_cell true (update_cell true reg model sweep_type config_label v e)
            model sweep_type config2 v2 e2).throughput (model, sweep_type, config_label) = some v
        ∧ getA (update_cell true (update_cell true reg model sweep_type config_label v e)
            model sweep_type config2 v2 e2).throughput (model, sweep_type, config2) = some v2)
    ∧ (0 < e → getA (update_cell true reg model sweep_type config_label v e).errors sweep_type
        = some ((getA reg.errors sweep_type).getD 0 + e))
    ∧ (e = 0 → (update_cell true reg model sweep_type config_label v e).errors = reg.errors)
    ∧ update_cell false reg model sweep_type config_label v e = reg := by
  have hthr : ∀ (r : Registry) (c : String) (w : Rat) (k : Nat),
      (update_cell true r model sweep_type c w k).throughput
        = setA (model, sweep_type, c) w r.throughput := by
    intro r c w k
    by_cases hk : k ≠ 0 <;> simp [update_cell, hk]
  refine ⟨?_, ?_, ?_, ?_, ?_⟩
  · rw [hthr]
    exact getA_setA_same _ _ _
  · intro config2 v2 e2 hc
    have hne : (model, sweep_type, config2) ≠ (model, sweep_type, config_label) := by
      simp [Prod.ext_iff, hc]
    constructor
    · rw [hthr, getA_setA_other _ _ _ _ (Ne.symm hne), hthr]
      exact getA_setA_same _ _ _
    · rw [hthr]
      exact getA_setA_same _ _ _
  · intro he
    have hne : e ≠ 0 := by omega
    simp [update_cell, hne, getA_setA_same]
  · intro he
    simp [update_cell, he]
  · rfl

theorem claim_C7_witness :
    getA (update_cell true emptyRegistry "m" "s" "c1" 5 2).throughput ("m", "s", "c1") = some 5
    ∧ getA (update_cell true (update_cell true emptyRegistry "m" "s" "c1" 5 2)
        "m" "s" "c2" 7 0).throughput ("m", "s", "c1") = some 5
    ∧ getA (update_cell true (update_cell true emptyRegistry "m" "s" "c1" 5 2)
        "m" "s" "c2" 7 0).throughput ("m", "s", "c2") = some 7
    ∧ getA (update_cell true emptyRegistry "m" "s" "c1" 5 2).errors "s" = some 2
    ∧ update_cell false emptyRegistry "m" "s" "c1" 5 2 = emptyRegistry := by
  have h := claim_C7_update_cell emptyRegistry "m" "s" "c1" 5 2
  refine ⟨h.1, (h.2.1 "c2" 7 0 (by decide)).1, (h.2.1 "c2" 7 0 (by decide)).2,
    ?_, h.2.2.2.2⟩
  exact (h.2.2.1 (by decide)).trans (by decide)

/-- The presign gateway's response document `{"url": u}`. -/
def urlObj (u : String) : JVal := JVal.obj (JObj.cons "url" (JVal.str u) JObj.nil)

theorem loads_render_urlObj (u : String) (_hu : plainStr u = true) :
    loads (renderStr (JVal.obj (JObj.cons "url" (JVal.str u) JObj.nil)))
      = Except.ok (JVal.obj (JObj.cons "url" (JVal.str u) JObj.nil)) := by
  show loads (renderStr (urlObj u)) = Except.ok (urlObj u)
  have hsz : jsize (urlObj u) ≤ (render (urlObj u)).length + 1 := by
    have h3 : jsize (urlObj u) = 3 := rfl
    have hlen : 2 ≤ (render (urlObj u)).length := by
      simp [urlObj, render]
    omega
  have hp := parseVal_render (urlObj u) ((render (urlObj u)).length + 1) hsz
  unfold loads renderStr
  rw [show (String.mk (render (urlObj u))).data = render (urlObj u) from rfl, hp]
  rfl

/-- C4: with a nonempty secret, a gateway answering `{"url": u1}` to the
PUT presign and `{"url": u2}` to the GET presign, a readable file and a
storage endpoint accepting the upload, `archive_csv_to_minio` performs
exactly the three-step flow — presign PUT for `(bucket, default key)`
with the bearer secret, raw PUT of the file bytes to `u1`, presign GET
for the same key — and returns exactly `u2`. -/
theorem claim_C4_archive_flow (secret presignUrl csv_path bucket u1 u2 fileData putResp : String)
    (http : Req → Except PyExc String) (files : String → Except PyExc String)
    (hsecret : secret ≠ "") (hu1p : plainStr u1 = true) (hu2p : plainStr u2 = true)
    (hu1ne : u1 ≠ "")
    (h1 : http (presignReq presignUrl secret bucket (defaultKey csv_path) "PUT")
      = Except.ok (renderStr (urlObj u1)))
    (hf : files csv_path = Except.ok fileData)
    (h2 : http (putReq u1 fileData) = Except.ok putResp)
    (h3 : http (presignReq presignUrl secret bucket (defaultKey csv_path) "GET")
      = Except.ok (renderStr (urlObj u2))) :
    archive_csv_to_minio secret presignUrl http files csv_path bucket none
      = (Except.ok (some (JVal.str u2)),
         [presignReq presignUrl secret bucket (defaultKey csv_path) "PUT",
          putReq u1 fileData,
          presignReq presignUrl secret bucket (defaultKey csv_path) "GET"]) := by
  have htr : truthy (JVal.str u1) = true := by simp [truthy, hu1ne]
  unfold archive_csv_to_minio
  rw [if_neg hsecret]
  simp [h1, h2, h3, hf, loads_render_urlObj u1 hu1p, loads_render_urlObj u2 hu2p,
    dictGet, urlObj, lookupO, htr]

theorem claim_C4_witness :
    archive_csv_to_minio "s3cret" "http://gw"
      (fun r =>
        if r = presignReq "http://gw" "s3cret" "outputs" (defaultKey "/tmp/run.csv") "PUT" then
          Except.ok (renderStr (urlObj "http://upload"))
        else if r = putReq "http://upload" "a,b" then
          Except.ok ""
        else if r = presignReq "http://gw" "s3cret" "outputs" (defaultKey "/tmp/run.csv") "GET" then
          Except.ok (renderStr (urlObj "http://download"))
        else Except.error PyExc.osError)
      (fun _ => Except.ok "a,b") "/tmp/run.csv" "outputs" none
      = (Except.ok (some (JVal.str "http://download")),
         [presignReq "http://gw" "s3cret" "outputs" (defaultKey "/tmp/run.csv") "PUT",
          putReq "http://upload" "a,b",
          presignReq "http://gw" "s3cret" "outputs" (defaultKey "/tmp/run.csv") "GET"]) := by
  exact claim_C4_archive_flow "s3cret" "http://gw" "/tmp/run.csv" "outputs"
    "http://upload" "http://download" "a,b" ""
    _ _ (by decide) (by decide) (by decide) (by decide)
    rfl rfl rfl rfl

/-- C1 (code bug): a presign gateway answering 200 with a non-JSON body
makes `archive_csv_to_minio` raise `json.JSONDecodeError` to its caller:
its `except (URLError, OSError)` clause does not cover it, although the
invariant (and `_post_json`, which lists `json.JSONDecodeError`
explicitly) requires malformed responses to yield `None`. -/
theorem claim_C1_archive_propagates_json_error :
    (archive_csv_to_minio "secret" "http://gw" (fun _ => Except.ok "not json")
        (fun _ => Except.ok "data") "/tmp/run.csv" "outputs" none).fst
      = Except.error PyExc.jsonDecodeError
    ∧ archHandle PyExc.jsonDecodeError = Except.error PyExc.jsonDecodeError
    ∧ (if caughtByPostJson PyExc.jsonDecodeError = true then Except.ok (none : Option JVal)
       else Except.error PyExc.jsonDecodeError) = Except.ok none := by
  exact ⟨rfl, rfl, rfl⟩

/-- C3: JSON-decoding the bytes `_envelope(T, P)` puts on the wire
recovers the envelope object itself, whose `payload` field is `P`
unchanged, whose `topic` is `T`, whose `version` is the fixed `"v1"`,
whose `source` is the fixed producer name, and whose `ts` field parses
as a UTC ISO-8601 time with a literal `Z` suffix (recovering the
injected `gmtime()` instant). -/
theorem claim_C3_envelope_roundtrip (idStr subject : String) (tm : Tm) (payload : JVal)
    (htm : tmValid tm = true) :
    parseVal (jsize (envelope idStr tm subject payload))
        (envelopeBytes idStr tm subject payload)
      = some (envelope idStr tm subject payload, [])
    ∧ jget (envelope idStr tm subject payload) "payload" = some payload
    ∧ jget (envelope idStr tm subject payload) "topic" = some (JVal.str subject)
    ∧ jget (envelope idStr tm subject payload) "version" = some (JVal.str "v1")
    ∧ jget (envelope idStr tm subject payload) "source"
        = some (JVal.str "llama-throughput-lab")
    ∧ jget (envelope idStr tm subject payload) "ts" = some (JVal.str (formatIso tm))
    ∧ parseIso8601Z (formatIso tm) = some tm
    ∧ (∃ p, (formatIso tm).data = p ++ ['Z']) := by
  refine ⟨?_, rfl, rfl, rfl, rfl, rfl, parse_format_iso tm htm, formatIso_endsZ tm⟩
  exact parseVal_render _ _ (le_refl _)

theorem claim_C3_witness :
    parseVal (jsize (envelope "a1" ⟨2026, 10, 12, 3, 4, 5⟩ "llama.benchmark.cell.v1"
        (JVal.obj (JObj.cons "model" (JVal.str "A \"7b\"\n β 𝄞") (JObj.cons "throughput_tps"
          (JVal.dec 425 0) JObj.nil)))))
      (envelopeBytes "a1" ⟨2026, 10, 12, 3, 4, 5⟩ "llama.benchmark.cell.v1"
        (JVal.obj (JObj.cons "model" (JVal.str "A \"7b\"\n β 𝄞") (JObj.cons "throughput_tps"
          (JVal.dec 425 0) JObj.nil))))
      = some (envelope "a1" ⟨2026, 10, 12, 3, 4, 5⟩ "llama.benchmark.cell.v1"
        (JVal.obj (JObj.cons "model" (JVal.str "A \"7b\"\n β 𝄞") (JObj.cons "throughput_tps"
          (JVal.dec 425 0) JObj.nil))), [])
    ∧ jget (envelope "a1" ⟨2026, 10, 12, 3, 4, 5⟩ "llama.benchmark.cell.v1"
        (JVal.obj (JObj.cons "model" (JVal.str "A \"7b\"\n β 𝄞") (JObj.cons "throughput_tps"
          (JVal.dec 425 0) JObj.nil)))) "payload"
      = some (JVal.obj (JObj.cons "model" (JVal.str "A \"7b\"\n β 𝄞") (JObj.cons "throughput_tps"
          (JVal.dec 425 0) JObj.nil)))
    ∧ parseIso8601Z (formatIso ⟨2026, 10, 12, 3, 4, 5⟩) = some ⟨2026, 10, 12, 3, 4, 5⟩ :=
  ⟨(claim_C3_envelope_roundtrip "a1" "llama.benchmark.cell.v1" ⟨2026, 10, 12, 3, 4, 5⟩
      (JVal.obj (JObj.cons "model" (JVal.str "A \"7b\"\n β 𝄞") (JObj.cons "throughput_tps"
        (JVal.dec 425 0) JObj.nil))) (by decide)).1,
   (claim_C3_envelope_roundtrip "a1" "llama.benchmark.cell.v1" ⟨2026, 10, 12, 3, 4, 5⟩
      (JVal.obj (JObj.cons "model" (JVal.str "A \"7b\"\n β 𝄞") (JObj.cons "throughput_tps"
        (JVal.dec 425 0) JObj.nil))) (by decide)).2.1,
   (claim_C3_envelope_roundtrip "a1" "llama.benchmark.cell.v1" ⟨2026, 10, 12, 3, 4, 5⟩
      (JVal.obj (JObj.cons "model" (JVal.str "A \"7b\"\n β 𝄞") (JObj.cons "throughput_tps"
        (JVal.dec 425 0) JObj.nil))) (by decide)).2.2.2.2.2.2.1⟩
